import Mathlib

/-!
redditclone: the vote ledger of a post, the post repositories, the session
managers, the error reporting of the post handlers and the middleware `Auth`.

A shallow embedding of `pkg/vote/vote.go`, `pkg/user/user.go`,
`pkg/comment/comment.go`, `pkg/post/post.go`, `pkg/post/repo.go`,
`pkg/post/repo_mongo.go`, `pkg/session/session.go`, `pkg/session/manager.go`,
`pkg/session/session_mysql.go`, `pkg/sending/sending.go`,
`pkg/middleware/auth.go` and `handlePostRepoErrors` of `pkg/handlers/post.go`.

* Go structs are Lean structures with the same field names (`Post.Type` is
  spelled `Type_`, because `Type` is reserved).
* Go slices are lists; a method with a pointer receiver `func (p *Post) m(..)`
  is a function `Post → .. → Post` returning the mutated post.
* Go `int` is `Int`.  Division is `Int.tdiv`, which truncates toward zero as
  Go's `/` does.  The 64-bit wrap-around of `int` is outside the model.
* `findUserVote` returns a pointer into `p.Votes` and the index; here it
  returns the vote stored at that index together with the index, and a write
  through the pointer is `List.set` at the index.
* A Go map is a list of entries read by key; a method of a repository or of a
  session manager takes the state and returns its results with the new state.
  Locks and loggers are left out: every run is sequential.
* What the code asks of its collaborators is a parameter: the value of
  `uuid.NewUUID()` and of `CreationTime()`, the readings of `time.Now()`, the
  MongoDB collection behind `CollectionHelper`, the `sessions` table behind
  `*sql.DB`, the user store behind `UserRepo`, the layout functions of package
  `time`, and the wire format and cryptography of the JWT library.
* An `error` is a sentinel, an opaque error, or a chain of `%w` wraps around
  one of them: the shapes of error the repository makes.
-/

namespace RedditClone

/-! ## Data model -/

/-- The struct `user.User`. -/
structure User where
  ID : String
  Username : String
  password : String
deriving DecidableEq, Repr

/-- The struct `vote.Vote`. -/
structure Vote where
  UserID : String
  Value : Int
deriving DecidableEq, Repr

/-- The struct `comment.Comment`. -/
structure Comment where
  Created : String
  Author : User
  ID : String
  Body : String
deriving DecidableEq, Repr

/-- The struct `post.Post`. -/
structure Post where
  ID : String
  Title : String
  Views : Int
  Type_ : String
  URL : String
  Text : String
  Author : User
  Category : String
  Votes : List Vote
  Comments : List Comment
  Created : String
  UpvotePercentage : Int
  Score : Int
deriving DecidableEq, Repr

/-- The constant `TEXT` of `post.go`. -/
def TEXT : String := "text"

/-! ## Operations of `post.go` -/

/-- The method `(p *Post) SyncUpvotePercentage()`. -/
def Post.SyncUpvotePercentage (p : Post) : Post :=
  if p.Votes.length ≠ 0 then
    let upvoteCnt : Int := Int.tdiv (p.Score + (p.Votes.length : Int)) 2
    { p with UpvotePercentage := Int.tdiv (upvoteCnt * 100) (p.Votes.length : Int) }
  else
    { p with UpvotePercentage := 0 }

/-- The function `InitPost(post *Post, usr user.User)`. -/
def InitPost (post : Post) (usr : User) : Post :=
  let post := { post with Author := usr, Comments := [], Score := 1 }
  let post := if post.Type_ = TEXT then { post with URL := "" } else { post with Text := "" }
  let post := { post with Votes := [{ UserID := usr.ID, Value := 1 }] }
  post.SyncUpvotePercentage

/-- The loop of `findUserVote` over a slice of votes: the first vote whose
`UserID` is `userID`, with its index. -/
def findVote (userID : String) : List Vote → Option (Vote × Nat)
  | [] => none
  | v :: vs =>
    if v.UserID = userID then some (v, 0)
    else (findVote userID vs).map fun r => (r.1, r.2 + 1)

/-- The method `(p Post) findUserVote(userID string) (*vote.Vote, int)`;
`none` stands for the result `nil, -1`. -/
def Post.findUserVote (p : Post) (userID : String) : Option (Vote × Nat) :=
  findVote userID p.Votes

/-- The method `(p *Post) changeVotes(userID string, desiredValue int)`. -/
def Post.changeVotes (p : Post) (userID : String) (desiredValue : Int) : Post :=
  match p.findUserVote userID with
  | none =>
    let v : Vote := { UserID := userID, Value := desiredValue }
    let p := { p with Votes := p.Votes ++ [v] }
    let p := { p with Score := p.Score + v.Value }
    p.SyncUpvotePercentage
  | some (v, i) =>
    if v.Value = desiredValue then p
    else
      let p1 := { p with Score := p.Score - v.Value }
      let v1 : Vote := { v with Value := desiredValue }
      let p2 := { p1 with Votes := p1.Votes.set i v1 }
      let p3 := { p2 with Score := p2.Score + v1.Value }
      p3.SyncUpvotePercentage

/-- The method `(p *Post) Upvote(userID string)`. -/
def Post.Upvote (p : Post) (userID : String) : Post :=
  p.changeVotes userID 1

/-- The method `(p *Post) Downvote(userID string)`. -/
def Post.Downvote (p : Post) (userID : String) : Post :=
  p.changeVotes userID (-1)

/-- The method `(p *Post) Unvote(userID string)`.  The read
`p.Votes[len(p.Votes)-1]` is in range whenever a vote was found, so the
default of `getD` is never returned. -/
def Post.Unvote (p : Post) (userID : String) : Post :=
  match p.findUserVote userID with
  | none => p
  | some (v, i) =>
    let p1 := { p with Score := p.Score - v.Value }
    let p2 := { p1 with Votes := p1.Votes.set i (p1.Votes.getD (p1.Votes.length - 1) v) }
    let p3 := { p2 with Votes := p2.Votes.take (p2.Votes.length - 1) }
    p3.SyncUpvotePercentage

/-! ## Sequences of ledger calls -/

/-- One call on the ledger of a post. -/
inductive Call where
  | upvote (userID : String)
  | downvote (userID : String)
  | unvote (userID : String)
deriving DecidableEq, Repr

/-- The post after one call. -/
def Call.apply (p : Post) : Call → Post
  | .upvote u => p.Upvote u
  | .downvote u => p.Downvote u
  | .unvote u => p.Unvote u

/-- The post after a sequence of calls, first call first. -/
def runCalls (p : Post) (calls : List Call) : Post :=
  calls.foldl Call.apply p

/-- The sum of the `Value` fields of a slice of votes. -/
def sumValues (votes : List Vote) : Int :=
  (votes.map Vote.Value).sum

/-- A ledger has at most one vote per user. -/
def DistinctUsers (votes : List Vote) : Prop :=
  (votes.map Vote.UserID).Nodup

instance (votes : List Vote) : Decidable (DistinctUsers votes) :=
  inferInstanceAs (Decidable (votes.map Vote.UserID).Nodup)

/-- A sample post: the one of `TestUpvote`, with votes `[+1,+1,+1,-1]`. -/
def samplePost : Post :=
  { ID := "1", Title := "title", Views := 2, Type_ := "text", URL := "", Text := "",
    Author := { ID := "1", Username := "username", password := "" },
    Category := "category",
    Votes := [⟨"1", 1⟩, ⟨"2", 1⟩, ⟨"3", 1⟩, ⟨"4", -1⟩],
    Comments := [], Created := "", UpvotePercentage := 75, Score := 2 }

/-- The votes left when the vote between `pre` and `post` is removed by
moving the last vote into its place: `pre` alone when nothing follows the
removed vote, else `pre`, the last vote of `post`, and the rest of `post`. -/
def swapOut (pre post : List Vote) : List Vote :=
  match post.getLast? with
  | none => pre
  | some l => pre ++ l :: post.dropLast

/-- The value `SyncUpvotePercentage` computes from a score and a ledger. -/
def percentageOf (score : Int) (votes : List Vote) : Int :=
  if votes.length ≠ 0 then
    Int.tdiv (Int.tdiv (score + (votes.length : Int)) 2 * 100) (votes.length : Int)
  else 0

/-- Every vote of a ledger has the value `+1` or `-1`. -/
def UnitValues (votes : List Vote) : Prop :=
  ∀ v ∈ votes, v.Value = 1 ∨ v.Value = -1

/-- The number of `+1` votes of a ledger. -/
def upvoteCount (votes : List Vote) : Nat :=
  votes.countP fun v => decide (v.Value = 1)

/-! ## Errors -/

/-- A Go `error` value: a package-level sentinel made by `errors.New`, named
by its qualified name, an error of a collaborator or one made by `fmt.Errorf`
without `%w`, or an error wrapped by `fmt.Errorf("..%w", err)`. -/
inductive Error where
  | sentinel (name : String)
  | other (msg : String)
  | wrap (msg : String) (err : Error)
deriving DecidableEq, Repr

/-- The sentinel `post.ErrNoPost`. -/
def ErrNoPost : Error := .sentinel "post.ErrNoPost"

/-- The sentinel `post.ErrPostAlreadyExists`. -/
def ErrPostAlreadyExists : Error := .sentinel "post.ErrPostAlreadyExists"

/-- The sentinel `post.ErrNoAccess`. -/
def ErrNoAccess : Error := .sentinel "post.ErrNoAccess"

/-- The sentinel `comment.ErrNoComment`. -/
def ErrNoComment : Error := .sentinel "comment.ErrNoComment"

/-- The sentinel `session.ErrNoAuth`. -/
def ErrNoAuth : Error := .sentinel "session.ErrNoAuth"

/-- The sentinel `session.ErrBadToken`. -/
def ErrBadToken : Error := .sentinel "session.ErrBadToken"

/-- The sentinel `mongo.ErrNoDocuments` of the driver. -/
def ErrNoDocuments : Error := .sentinel "mongo.ErrNoDocuments"

/-- The function `errors.Is(err, target)`: `err` or an error it wraps is `target`. -/
def Error.Is : Error → Error → Bool
  | .wrap msg inner, target => decide (Error.wrap msg inner = target) || Error.Is inner target
  | e, target => decide (e = target)

/-! ## Go maps and method results -/

/-- The read `m[key]` of a Go map kept as a list of entries. -/
def mapLookup {β : Type} (key : String) : List (String × β) → Option β
  | [] => none
  | (k, b) :: rest => if k = key then some b else mapLookup key rest

/-- The write `m[key] = value`: the entry of `key` is replaced where it
stands, or a new entry is added. -/
def mapStore {β : Type} (key : String) (value : β) : List (String × β) → List (String × β)
  | [] => [(key, value)]
  | (k, b) :: rest => if k = key then (k, value) :: rest else (k, b) :: mapStore key value rest

/-- The statement `delete(m, key)`. -/
def mapDelete {β : Type} (key : String) (m : List (String × β)) : List (String × β) :=
  m.filter fun e => decide (e.1 ≠ key)

/-- What a repository method returns, `(val, err)`, and the state of the
store after the call. -/
structure Ret (α σ : Type) where
  val : α
  err : Option Error
  state : σ
deriving DecidableEq, Repr

/-- The zero value `user.User{}`. -/
def User.zero : User := { ID := "", Username := "", password := "" }

/-- The zero value `comment.Comment{}`. -/
def Comment.zero : Comment := { Created := "", Author := User.zero, ID := "", Body := "" }

/-- The zero value `Post{}`. -/
def Post.zero : Post :=
  { ID := "", Title := "", Views := 0, Type_ := "", URL := "", Text := "", Author := User.zero,
    Category := "", Votes := [], Comments := [], Created := "", UpvotePercentage := 0,
    Score := 0 }

/-! ## The in-memory repository of `repo.go` -/

/-- The struct `PostMemoryRepository`. The map `id2Post` holds pointers to
posts; a write through such a pointer is a write of the entry. The lock `mu`
has no part in a sequential run and is left out. -/
structure PostMemoryRepository where
  id2Post : List (String × Post)
deriving DecidableEq, Repr

/-- The method `(repo *PostMemoryRepository) GetByID(id string) (Post, error)`. -/
def PostMemoryRepository.GetByID (repo : PostMemoryRepository) (id : String) :
    Ret Post PostMemoryRepository :=
  match mapLookup id repo.id2Post with
  | none => ⟨Post.zero, some ErrNoPost, repo⟩
  | some post =>
    let post := { post with Views := post.Views + 1 }
    ⟨post, none, { repo with id2Post := mapStore id post repo.id2Post }⟩

/-- The method `AddComment(postID string, comm comment.Comment) (Post, error)`.
`uuid` is what `uuid.NewUUID()` returns, as a string, and `now` is what
`CreationTime()` returns. -/
def PostMemoryRepository.AddComment (repo : PostMemoryRepository) (postID : String)
    (comm : Comment) (uuid : Except Error String) (now : String) :
    Ret Post PostMemoryRepository :=
  match mapLookup postID repo.id2Post with
  | none => ⟨Post.zero, some ErrNoPost, repo⟩
  | some post =>
    match uuid with
    | .error err => ⟨Post.zero, some (.wrap "in post add comment: " err), repo⟩
    | .ok uid =>
      let comm := { comm with ID := uid }
      let comm := { comm with Created := now }
      let post := { post with Comments := post.Comments ++ [comm] }
      ⟨post, none, { repo with id2Post := mapStore postID post repo.id2Post }⟩

/-- The loop of `DeleteComment` that looks for the comment: the index of the
first comment whose `ID` is `commentID`; `none` stands for `commIdx == -1`. -/
def findCommentIdx (commentID : String) : List Comment → Option Nat
  | [] => none
  | c :: cs =>
    if c.ID = commentID then some 0
    else (findCommentIdx commentID cs).map fun i => i + 1

/-- The method `DeleteComment(postID, commentID, userID string) (Post, error)`.
The reads `post.Comments[commIdx]` and `post.Comments[len(post.Comments)-1]`
are in range whenever the loop found a comment, so the default of `getD` is
never returned. -/
def PostMemoryRepository.DeleteComment (repo : PostMemoryRepository)
    (postID commentID userID : String) : Ret Post PostMemoryRepository :=
  match mapLookup postID repo.id2Post with
  | none => ⟨Post.zero, some ErrNoPost, repo⟩
  | some post =>
    match findCommentIdx commentID post.Comments with
    | none => ⟨Post.zero, some ErrNoComment, repo⟩
    | some commIdx =>
      let comm := post.Comments.getD commIdx Comment.zero
      if comm.Author.ID ≠ userID then ⟨Post.zero, some ErrNoAccess, repo⟩
      else
        let last := post.Comments.getD (post.Comments.length - 1) Comment.zero
        let post := { post with Comments := post.Comments.set commIdx last }
        let post := { post with Comments := post.Comments.take (post.Comments.length - 1) }
        ⟨post, none, { repo with id2Post := mapStore postID post repo.id2Post }⟩

/-- The method `(repo *PostMemoryRepository) Upvote(postID, userID string)`. -/
def PostMemoryRepository.Upvote (repo : PostMemoryRepository) (postID userID : String) :
    Ret Post PostMemoryRepository :=
  match mapLookup postID repo.id2Post with
  | none => ⟨Post.zero, some ErrNoPost, repo⟩
  | some post =>
    let post := post.Upvote userID
    ⟨post, none, { repo with id2Post := mapStore postID post repo.id2Post }⟩

/-- The method `(repo *PostMemoryRepository) Downvote(postID, userID string)`. -/
def PostMemoryRepository.Downvote (repo : PostMemoryRepository) (postID userID : String) :
    Ret Post PostMemoryRepository :=
  match mapLookup postID repo.id2Post with
  | none => ⟨Post.zero, some ErrNoPost, repo⟩
  | some post =>
    let post := post.Downvote userID
    ⟨post, none, { repo with id2Post := mapStore postID post repo.id2Post }⟩

/-- The method `(repo *PostMemoryRepository) Unvote(postID, userID string)`. -/
def PostMemoryRepository.Unvote (repo : PostMemoryRepository) (postID userID : String) :
    Ret Post PostMemoryRepository :=
  match mapLookup postID repo.id2Post with
  | none => ⟨Post.zero, some ErrNoPost, repo⟩
  | some post =>
    let post := post.Unvote userID
    ⟨post, none, { repo with id2Post := mapStore postID post repo.id2Post }⟩

/-- The method `(repo *PostMemoryRepository) Delete(postID, userID string) error`. -/
def PostMemoryRepository.Delete (repo : PostMemoryRepository) (postID userID : String) :
    Ret Unit PostMemoryRepository :=
  match mapLookup postID repo.id2Post with
  | none => ⟨(), some ErrNoPost, repo⟩
  | some post =>
    if post.Author.ID ≠ userID then ⟨(), some ErrNoAccess, repo⟩
    else ⟨(), none, { repo with id2Post := mapDelete postID repo.id2Post }⟩

/-- The repository after `n` calls of `GetByID` for the same id. -/
def readTimes (id : String) : Nat → PostMemoryRepository → PostMemoryRepository
  | 0, repo => repo
  | n + 1, repo => readTimes id n (repo.GetByID id).state

/-- The comments left when the comment between `pre` and `post` is removed by
moving the last comment into its place. -/
def swapOutOf {α : Type} (pre post : List α) : List α :=
  match post.getLast? with
  | none => pre
  | some l => pre ++ l :: post.dropLast

/-- A sample comment, written by user `"7"`. -/
def sampleComment : Comment :=
  { Created := "", Author := { ID := "7", Username := "seven", password := "" },
    ID := "c1", Body := "first" }

/-- A second sample comment, written by user `"1"`. -/
def sampleComment2 : Comment :=
  { Created := "", Author := { ID := "1", Username := "username", password := "" },
    ID := "c2", Body := "second" }

/-- A sample repository: the sample post, with two comments, under id `"1"`,
and a second post under id `"2"`. -/
def sampleRepo : PostMemoryRepository :=
  { id2Post :=
      [("1", { samplePost with Comments := [sampleComment, sampleComment2] }),
       ("2", { samplePost with ID := "2", Views := 5 })] }

/-! ## The MongoDB repository of `repo_mongo.go` -/

/-- The filters `repo_mongo.go` builds as `bson` values. -/
inductive Filter where
  | all
  | byID (id : String)
  | byCategory (category : String)
  | byAuthorUsername (username : String)
  | byIDAndAuthor (id userID : String)
deriving DecidableEq, Repr

/-- The updates `repo_mongo.go` builds as `bson` values: `$set` of `views`,
`$set` of a whole post, `$push` of a comment, and `$pull` of the comments
whose `id` is `commentID` and whose `author.id` is `userID`. -/
inductive Update where
  | setViews (views : Int)
  | setPost (post : Post)
  | pushComment (comm : Comment)
  | pullComment (commentID userID : String)
deriving DecidableEq, Repr

/-- The fields of `mongo.UpdateResult` the repository reads. -/
structure UpdateResult where
  MatchedCount : Int
  ModifiedCount : Int
deriving DecidableEq, Repr

/-- The interface `CollectionHelper` of `db_abstract.go`, over a store with
states `σ`: `FindOne` stands for `FindOne(ctx, filter).Decode(&post)`. -/
structure CollectionHelper (σ : Type) where
  FindOne : σ → Filter → Except Error Post
  DeleteOne : σ → Filter → Ret Int σ
  UpdateOne : σ → Filter → Update → Ret UpdateResult σ

/-- The method `(repo *PostMongoDBRepository) getPost(id string) (Post, error)`. -/
def PostMongoDBRepository.getPost {σ : Type} (posts : CollectionHelper σ) (s : σ)
    (id : String) : Post × Option Error :=
  match posts.FindOne s (.byID id) with
  | .error err =>
    if err.Is ErrNoDocuments then (Post.zero, some ErrNoPost)
    else (Post.zero, some (.wrap ("fail to FindOne with id:" ++ id ++ ", ") err))
  | .ok post => (post, none)

/-- The method `(repo *PostMongoDBRepository) GetByID(id string) (Post, error)`. -/
def PostMongoDBRepository.GetByID {σ : Type} (posts : CollectionHelper σ) (s : σ)
    (id : String) : Ret Post σ :=
  match PostMongoDBRepository.getPost posts s id with
  | (post, some err) => ⟨post, some err, s⟩
  | (post, none) =>
    let post := { post with Views := post.Views + 1 }
    let r := posts.UpdateOne s (.byID id) (.setViews post.Views)
    ⟨post, r.err, r.state⟩

/-- The method `DeleteComment(postID, commentID, userID string) (Post, error)`
of `PostMongoDBRepository`. -/
def PostMongoDBRepository.DeleteComment {σ : Type} (posts : CollectionHelper σ) (s : σ)
    (postID commentID userID : String) : Ret Post σ :=
  let r := posts.UpdateOne s (.byID postID) (.pullComment commentID userID)
  match r.err with
  | some err => ⟨Post.zero, some err, r.state⟩
  | none =>
    if r.val.MatchedCount = 0 then ⟨Post.zero, some ErrNoPost, r.state⟩
    else if r.val.ModifiedCount = 0 then ⟨Post.zero, some ErrNoComment, r.state⟩
    else
      let g := PostMongoDBRepository.getPost posts r.state postID
      ⟨g.1, g.2, r.state⟩

/-- The method `(repo *PostMongoDBRepository) Delete(postID, userID string) error`. -/
def PostMongoDBRepository.Delete {σ : Type} (posts : CollectionHelper σ) (s : σ)
    (postID userID : String) : Ret Unit σ :=
  let r := posts.DeleteOne s (.byIDAndAuthor postID userID)
  match r.err with
  | some err => ⟨(), some err, r.state⟩
  | none => ⟨(), none, r.state⟩

/-- Whether a stored post matches a filter. -/
def Filter.matchesPost : Filter → Post → Bool
  | .all, _ => true
  | .byID id, p => decide (p.ID = id)
  | .byCategory category, p => decide (p.Category = category)
  | .byAuthorUsername username, p => decide (p.Author.Username = username)
  | .byIDAndAuthor id userID, p => decide (p.ID = id) && decide (p.Author.ID = userID)

/-- The document an update operator leaves. -/
def Update.applyTo : Update → Post → Post
  | .setViews views, p => { p with Views := views }
  | .setPost post, _ => post
  | .pushComment comm, p => { p with Comments := p.Comments ++ [comm] }
  | .pullComment commentID userID, p =>
    { p with Comments :=
        p.Comments.filter fun c => !(decide (c.ID = commentID) && decide (c.Author.ID = userID)) }

/-- The documents after the first one matching `f` is replaced by `g` of it. -/
def updateFirst (f : Post → Bool) (g : Post → Post) : List Post → List Post
  | [] => []
  | p :: ps => if f p then g p :: ps else p :: updateFirst f g ps

/-- The documents after the first one matching `f` is removed. -/
def deleteFirst (f : Post → Bool) : List Post → List Post
  | [] => []
  | p :: ps => if f p then ps else p :: deleteFirst f ps

/-- A model of a MongoDB collection of posts that answers every call without
a driver error, after the documented behaviour of `findOne`, `deleteOne` and
`updateOne`: the state is the list of documents, `FindOne` fails with
`mongo.ErrNoDocuments` when no document matches, `DeleteOne` returns the
number of documents deleted, and `UpdateOne` reports how many documents the
filter matched and how many the update changed. -/
def mongoCollection : CollectionHelper (List Post) where
  FindOne := fun docs filter =>
    match docs.find? filter.matchesPost with
    | none => .error ErrNoDocuments
    | some post => .ok post
  DeleteOne := fun docs filter =>
    match docs.find? filter.matchesPost with
    | none => ⟨0, none, docs⟩
    | some _ => ⟨1, none, deleteFirst filter.matchesPost docs⟩
  UpdateOne := fun docs filter update =>
    match docs.find? filter.matchesPost with
    | none => ⟨⟨0, 0⟩, none, docs⟩
    | some post =>
      ⟨⟨1, if update.applyTo post = post then 0 else 1⟩, none,
        updateFirst filter.matchesPost update.applyTo docs⟩

/-- The documents of the sample repository. -/
def sampleDocs : List Post :=
  sampleRepo.id2Post.map Prod.snd

/-! ## Sessions: `session.go` and `manager.go` -/

/-- An instant `time.Time`, as nanoseconds since the Unix epoch. -/
abbrev Time := Int

/-- The method `(t Time) Unix() int64`: whole seconds since the epoch. -/
def Time.Unix (t : Time) : Int := t / 1000000000

/-- The function `time.Unix(sec, 0)`. -/
def timeUnix (sec : Int) : Time := sec * 1000000000

/-- The method `(t Time) After(u Time) bool`. -/
def Time.After (t u : Time) : Bool := decide (u < t)

/-- The constant `TokenExpirationTime = time.Hour * 24 * 7`, in nanoseconds. -/
def TokenExpirationTime : Int := 3600 * 1000000000 * 24 * 7

/-- The struct `session.Session`. -/
structure Session where
  Token : String
  User : User
deriving DecidableEq, Repr

/-- The function `NewSession(token string, user user.User) Session`. -/
def NewSession (token : String) (user : User) : Session :=
  { Token := token, User := user }

/-- A value stored in `jwt.MapClaims`: a number (whole numbers only: Unix
seconds), a string, a user record, or nothing (`nil`). -/
inductive ClaimValue where
  | num (n : Int)
  | str (s : String)
  | user (u : User)
  | null
deriving DecidableEq, Repr

/-- The type `jwt.MapClaims`. -/
abbrev MapClaims := List (String × ClaimValue)

/-- The signing methods of the JWT library: the HMAC family
(`*jwt.SigningMethodHMAC`), the other families, and `none`, each with the
name its `Alg()` returns. -/
inductive SigningMethod where
  | HMAC (name : String)
  | RSA (name : String)
  | RSAPSS (name : String)
  | ECDSA (name : String)
  | none
deriving DecidableEq, Repr

/-- The method `Alg() string` of a signing method. -/
def SigningMethod.Alg : SigningMethod → String
  | .HMAC name => name
  | .RSA name => name
  | .RSAPSS name => name
  | .ECDSA name => name
  | .none => "none"

/-- The constant `jwt.SigningMethodHS256`. -/
def SigningMethodHS256 : SigningMethod := .HMAC "HS256"

/-- The fields of `jwt.Token` the session managers read. -/
structure Token where
  Raw : String
  Method : SigningMethod
  Claims : MapClaims
  Valid : Bool
deriving DecidableEq, Repr

/-- The primitives of the JWT library that depend on the wire format and on
cryptography: `sign` is `Token.SignedString(key)`, `decode` splits and decodes
a token string into its signing method and claims, and `verify` is
`Method.Verify` of the token's signature under a key. -/
structure JWTCodec where
  sign : SigningMethod → MapClaims → List Nat → Except Error String
  decode : String → Option (SigningMethod × MapClaims)
  verify : SigningMethod → String → List Nat → Bool

/-- The check of one time claim by `MapClaims.Valid()`: a claim that is not a
number, or is `0`, passes; otherwise `ok` decides. -/
def claimPasses (claims : MapClaims) (name : String) (ok : Int → Bool) : Bool :=
  match mapLookup name claims with
  | some (.num n) => decide (n = 0) || ok n
  | _ => true

/-- The method `MapClaims.Valid()` of the JWT library at the clock reading
`now`: not after `exp`, not before `iat`, not before `nbf`, in whole seconds. -/
def MapClaims.Valid (claims : MapClaims) (now : Time) : Bool :=
  claimPasses claims "exp" (fun exp => decide (now.Unix ≤ exp)) &&
  claimPasses claims "iat" (fun iat => decide (iat ≤ now.Unix)) &&
  claimPasses claims "nbf" (fun nbf => decide (nbf ≤ now.Unix))

/-- The function `jwt.Parse(tokenString, keyFunc)` at the clock reading `now`:
the token with `Valid` set when the string decodes, `keyFunc` returns a key,
the claims are valid and the signature verifies under that key. -/
def jwtParse (lib : JWTCodec) (tokenString : String)
    (keyFunc : Token → Except Error (List Nat)) (now : Time) : Except Error Token :=
  match lib.decode tokenString with
  | none => .error (.other "token contains an invalid number of segments")
  | some (method, claims) =>
    let token : Token := { Raw := tokenString, Method := method, Claims := claims, Valid := false }
    match keyFunc token with
    | .error err => .error (.wrap "" err)
    | .ok key =>
      if !claims.Valid now then .error (.other "token claims are not valid")
      else if !lib.verify method tokenString key then .error (.other "signature is invalid")
      else .ok { token with Valid := true }

/-- The function `getHashSecretGetter(secret []byte)`. -/
def getHashSecretGetter (secret : List Nat) : Token → Except Error (List Nat) :=
  fun token =>
    match token.Method with
    | .HMAC name => if name ≠ "HS256" then .error (.other "bad sign method") else .ok secret
    | _ => .error (.other "bad sign method")

/-- The result of a function that may return a value, return an error, or
panic. -/
inductive Outcome (α : Type) where
  | ok (a : α)
  | error (err : Error)
  | panic (msg : String)
deriving DecidableEq, Repr

/-- The function `getExpirationTime(token jwt.Token) (time.Time, error)`. The
claims of a parsed token are always `jwt.MapClaims`; the unchecked assertion
`expirationTime.(float64)` panics on a claim that is not a number. -/
def getExpirationTime (token : Token) : Outcome Time :=
  match mapLookup "exp" token.Claims with
  | none => .error (.other "exp not in claims")
  | some (.num expTime) => .ok (timeUnix expTime)
  | some _ => .panic "interface conversion: interface \x7b\x7d is not float64"

/-- The struct `SessionsManagerMemory`, without its lock and its logger. -/
structure SessionsManagerMemory where
  token2Session : List (String × Session)
  secret : List Nat
  lastID : Int
deriving DecidableEq, Repr

/-- The method `(sm *SessionsManagerMemory) Create(user user.User) (string, error)`.
`nowIat` and `nowExp` are the two readings of `time.Now()`. -/
def SessionsManagerMemory.Create (lib : JWTCodec) (sm : SessionsManagerMemory) (user : User)
    (nowIat nowExp : Time) : Ret String SessionsManagerMemory :=
  let claims : MapClaims :=
    [("user", .user user), ("iat", .num nowIat.Unix),
     ("exp", .num (Time.Unix (nowExp + TokenExpirationTime)))]
  match lib.sign SigningMethodHS256 claims sm.secret with
  | .error err => ⟨"", some (.wrap "fail from SignedString: " err), sm⟩
  | .ok tokenString =>
    let sm := { sm with lastID := sm.lastID + 1 }
    let session := NewSession (toString sm.lastID) user
    ⟨tokenString, none, { sm with token2Session := mapStore tokenString session sm.token2Session }⟩

/-- The characters of `s` after the leading characters `pre`, if `s` starts
with them. -/
def cutChars : List Char → List Char → Option (List Char)
  | [], s => some s
  | _ :: _, [] => none
  | p :: ps, c :: cs => if p = c then cutChars ps cs else none

/-- The function `strings.CutPrefix(s, prefix string) (after string, found bool)`. -/
def CutPrefix (s pre : String) : String × Bool :=
  match cutChars pre.data s.data with
  | some rest => (String.mk rest, true)
  | none => (s, false)

/-- The method `(sm *SessionsManagerMemory) Get(tokenString string) (*Session, error)`.
`nowParse` is the clock reading of `jwt.Parse` and `nowGet` the one of
`time.Now()` in `Get`. -/
def SessionsManagerMemory.Get (lib : JWTCodec) (sm : SessionsManagerMemory)
    (tokenString : String) (nowParse nowGet : Time) : Outcome Session :=
  match jwtParse lib tokenString (getHashSecretGetter sm.secret) nowParse with
  | .error _ => .error ErrBadToken
  | .ok token =>
    if !token.Valid then .error ErrBadToken
    else
      match getExpirationTime token with
      | .panic msg => .panic msg
      | .error _ => .error ErrBadToken
      | .ok exp =>
        let tokenIsExpired := nowGet.After exp
        match mapLookup tokenString sm.token2Session with
        | none => .error ErrNoAuth
        | some session => if tokenIsExpired then .error ErrNoAuth else .ok session

/-- The method `(sm *SessionsManagerMemory) Check(r *http.Request) (*Session, error)`;
`authorization` is `r.Header.Get("Authorization")`. -/
def SessionsManagerMemory.Check (lib : JWTCodec) (sm : SessionsManagerMemory)
    (authorization : String) (nowParse nowGet : Time) : Outcome Session :=
  let (token, hasPref) := CutPrefix authorization "Bearer "
  if !hasPref || token = "" then .error ErrNoAuth
  else sm.Get lib token nowParse nowGet

/-- A toy JWT codec for examples: it issues the one token string `"h.c.s"`
and reads it back as an `HS256` token with the claims `claims`. -/
def toyCodec (claims : MapClaims) : JWTCodec where
  sign := fun _ _ _ => .ok "h.c.s"
  decode := fun s => if s = "h.c.s" then some (SigningMethodHS256, claims) else none
  verify := fun _ _ _ => true

/-- A sample session manager with one older session. -/
def sampleManager : SessionsManagerMemory :=
  { token2Session := [("old", NewSession "1" samplePost.Author)], secret := [1, 2, 3],
    lastID := 1 }

/-- A sample user. -/
def sampleUser : User := { ID := "42", Username := "alice", password := "hash" }

/-- The claims `Create` writes for the sample user when the clock reads
`1000000000000` and then `1000000000005` nanoseconds. -/
def sampleClaims : MapClaims :=
  [("user", .user sampleUser), ("iat", .num (Time.Unix 1000000000000)),
   ("exp", .num (Time.Unix (1000000000005 + TokenExpirationTime)))]

/-! ## The MySQL-backed session manager of `session_mysql.go` -/

/-- The sentinel `sql.ErrNoRows` of `database/sql`. -/
def ErrNoRows : Error := .sentinel "sql.ErrNoRows"

/-- The sentinel `user.ErrNoUser`. -/
def ErrNoUser : Error := .sentinel "user.ErrNoUser"

/-- The zero value `Session{}`. -/
def Session.zero : Session := { Token := "", User := User.zero }

/-- What the manager asks of `*sql.DB`, over a store with states `σ`:
`QueryRow` stands for the `SELECT token, user_id, expiration` by token together
with its `Scan`, `ExecInsert` for the `INSERT IGNORE` of a row, and
`ExecDelete` for the `DELETE` by token. -/
structure SessionsDB (σ : Type) where
  QueryRow : σ → String → Except Error (String × String × String)
  ExecInsert : σ → String → String → String → Ret Unit σ
  ExecDelete : σ → String → Ret Unit σ

/-- The functions `Time.Format` and `time.Parse` for the layout
`MysqlDatetimeFormat`. -/
structure TimeLayout where
  Format : Time → String
  Parse : String → Except Error Time

/-- The method `GetByID` of the interface `user.UserRepo`. -/
structure UserRepo where
  GetByID : String → Except Error User

/-- The struct `SessionsManagerMySQL`, without its logger. -/
structure SessionsManagerMySQL (σ : Type) where
  DB : SessionsDB σ
  UserRepo : UserRepo
  secret : List Nat

/-- The method `(sm *SessionsManagerMySQL) Create(user user.User) (string, error)`.
`nowExp` and `nowIat` are the two readings of `time.Now()`, in that order. -/
def SessionsManagerMySQL.Create {σ : Type} (lib : JWTCodec) (layout : TimeLayout)
    (sm : SessionsManagerMySQL σ) (s : σ) (user : User) (nowExp nowIat : Time) :
    Ret String σ :=
  let tokenExpireDate : Time := nowExp + TokenExpirationTime
  let claims : MapClaims :=
    [("user", .user user), ("iat", .num nowIat.Unix), ("exp", .num tokenExpireDate.Unix)]
  match lib.sign SigningMethodHS256 claims sm.secret with
  | .error err => ⟨"", some err, s⟩
  | .ok tokenString =>
    let r := sm.DB.ExecInsert s tokenString user.ID (layout.Format tokenExpireDate)
    match r.err with
    | some _ => ⟨"", some ErrNoAuth, r.state⟩
    | none => ⟨tokenString, none, r.state⟩

/-- The method `(sm *SessionsManagerMySQL) Get(tokenString string) (Session, error)`.
`nowParse` is the clock reading of `jwt.Parse` and `nowGet` the one of
`time.Now()` in `Get`. -/
def SessionsManagerMySQL.Get {σ : Type} (lib : JWTCodec) (layout : TimeLayout)
    (sm : SessionsManagerMySQL σ) (s : σ) (tokenString : String) (nowParse nowGet : Time) :
    Ret Session σ :=
  match jwtParse lib tokenString (getHashSecretGetter sm.secret) nowParse with
  | .error _ => ⟨Session.zero, some ErrBadToken, s⟩
  | .ok token =>
    if !token.Valid then ⟨Session.zero, some ErrBadToken, s⟩
    else
      match sm.DB.QueryRow s tokenString with
      | .error err =>
        if err.Is ErrNoRows then ⟨Session.zero, some ErrNoAuth, s⟩
        else ⟨Session.zero, some err, s⟩
      | .ok (rowToken, rowUserID, timeVal) =>
        match layout.Parse timeVal with
        | .error err => ⟨Session.zero, some err, s⟩
        | .ok expiration =>
          if nowGet.After expiration then
            let r := sm.DB.ExecDelete s tokenString
            ⟨Session.zero, some ErrNoAuth, r.state⟩
          else
            match sm.UserRepo.GetByID rowUserID with
            | .error _ => ⟨Session.zero, some ErrNoAuth, s⟩
            | .ok user => ⟨NewSession rowToken user, none, s⟩

/-- The method `(sm *SessionsManagerMySQL) Check(r *http.Request) (Session, error)`;
`authorization` is `r.Header.Get("Authorization")`. -/
def SessionsManagerMySQL.Check {σ : Type} (lib : JWTCodec) (layout : TimeLayout)
    (sm : SessionsManagerMySQL σ) (s : σ) (authorization : String) (nowParse nowGet : Time) :
    Ret Session σ :=
  let (token, hasPref) := CutPrefix authorization "Bearer "
  if !hasPref || token = "" then ⟨Session.zero, some ErrNoAuth, s⟩
  else sm.Get lib layout s token nowParse nowGet

/-- A model of the `sessions` table that answers every call without a driver
error: the state is the list of rows `(token, user_id, expiration)`, the
`SELECT` returns the first row with the token or `sql.ErrNoRows`, the
`INSERT IGNORE` adds a row unless the token is already there, and the
`DELETE` removes the rows with the token. -/
def sessionsTable : SessionsDB (List (String × String × String)) where
  QueryRow := fun rows token =>
    match rows.find? fun row => decide (row.1 = token) with
    | none => .error ErrNoRows
    | some row => .ok row
  ExecInsert := fun rows token userID expiration =>
    match rows.find? fun row => decide (row.1 = token) with
    | none => ⟨(), none, rows ++ [(token, userID, expiration)]⟩
    | some _ => ⟨(), none, rows⟩
  ExecDelete := fun rows token =>
    ⟨(), none, rows.filter fun row => decide (row.1 ≠ token)⟩

/-- A toy layout for examples: every instant is written as the one text
`"2001-09-16 01:46:45"`, which is read back as the instant `expiration`. -/
def toyLayout (expiration : Time) : TimeLayout where
  Format := fun _ => "2001-09-16 01:46:45"
  Parse := fun text =>
    if text = "2001-09-16 01:46:45" then .ok expiration else .error (.other "parsing time")

/-- A user store holding the sample user alone. -/
def sampleUserRepo : UserRepo where
  GetByID := fun userID => if userID = sampleUser.ID then .ok sampleUser else .error ErrNoUser

/-- A sample MySQL-backed manager over the model table. -/
def sampleManagerMySQL : SessionsManagerMySQL (List (String × String × String)) :=
  { DB := sessionsTable, UserRepo := sampleUserRepo, secret := [1, 2, 3] }

/-- The expiry instant of the sample token: whole seconds, as the `exp` claim
of `sampleClaims` has it. -/
def sampleExpiry : Time := timeUnix (Time.Unix (1000000000005 + TokenExpirationTime))

/-! ## Responses: `sending.go` and `handlePostRepoErrors` of `handlers/post.go` -/

/-- The struct `sending.Message`. -/
structure Message where
  Message : String
deriving DecidableEq, Repr

/-- What was written to a response body: the JSON encoding of a message, or
other bytes. -/
inductive Written where
  | message (m : Message)
  | bytes (b : String)
deriving DecidableEq, Repr

/-- An `http.ResponseWriter`: the header map, the status code sent by the
first `WriteHeader`, if any, and what was written to the body. -/
structure ResponseWriter where
  Header : List (String × String)
  Status : Option Int
  Body : List Written
deriving DecidableEq, Repr

/-- The method `WriteHeader(statusCode int)`: the first call sends the status,
a later call is superfluous and changes nothing. -/
def ResponseWriter.WriteHeader (w : ResponseWriter) (status : Int) : ResponseWriter :=
  match w.Status with
  | none => { w with Status := some status }
  | some _ => w

/-- The method `Write([]byte)`: it sends the status `200` when none was sent
before. -/
def ResponseWriter.Write (w : ResponseWriter) (data : Written) : ResponseWriter :=
  let w := w.WriteHeader 200
  { w with Body := w.Body ++ [data] }

/-- The function `SendJSONMessage(w, message, status)`. `json.Marshal` of a
`Message` does not fail, and the `WriteHeader` after a failed `Write` comes
after the status was sent, so it changes nothing. -/
def SendJSONMessage (w : ResponseWriter) (message : String) (status : Int) : ResponseWriter :=
  let w := { w with Header := mapStore "Content-Type" "application/json" w.Header }
  let w := w.WriteHeader status
  w.Write (.message { Message := message })

/-- The status codes of `net/http` the handlers use. -/
def StatusNotFound : Int := 404

/-- The constant `http.StatusForbidden`. -/
def StatusForbidden : Int := 403

/-- The constant `http.StatusInternalServerError`. -/
def StatusInternalServerError : Int := 500

/-- The constant `http.StatusUnauthorized`. -/
def StatusUnauthorized : Int := 401

/-- The function `handlePostRepoErrors(w http.ResponseWriter, err error)`;
`none` is the `nil` error, for which no case of the `switch` holds. -/
def handlePostRepoErrors (w : ResponseWriter) (err : Option Error) : ResponseWriter :=
  match err with
  | none => w
  | some e =>
    if e.Is ErrNoPost then SendJSONMessage w "invalid post id" StatusNotFound
    else if e.Is ErrNoAccess then SendJSONMessage w "no access" StatusForbidden
    else if e.Is ErrNoComment then SendJSONMessage w "invalid comment id" StatusNotFound
    else w.WriteHeader StatusInternalServerError

/-- A response writer nothing was done with yet. -/
def freshWriter : ResponseWriter := { Header := [], Status := none, Body := [] }

/-! ## The middleware `Auth` of `middleware/auth.go` -/

/-- A key of a `context.Context`: the Go type of the key and its value. -/
structure CtxKey where
  kind : String
  value : String
deriving DecidableEq, Repr

/-- A value stored in a `context.Context`: a `Session`, or a value of another
type. -/
inductive CtxValue where
  | session (sess : Session)
  | other (text : String)
deriving DecidableEq, Repr

/-- A `context.Context`: the bindings made by `context.WithValue`, the last
one first. -/
abbrev Context := List (CtxKey × CtxValue)

/-- The method `ctx.Value(key)`. -/
def Context.Value : Context → CtxKey → Option CtxValue
  | [], _ => none
  | (k, v) :: rest, key => if k = key then some v else Context.Value rest key

/-- The variable `SessionKey`, of the type `sessKey`. -/
def SessionKey : CtxKey := { kind := "session.sessKey", value := "sessionKey" }

/-- The function `SessionFromContext(ctx context.Context) (Session, error)`. -/
def SessionFromContext (ctx : Context) : Session × Option Error :=
  match ctx.Value SessionKey with
  | some (.session sess) => (sess, none)
  | _ => (Session.zero, some ErrNoAuth)

/-- The function `ContextWithSession(ctx context.Context, sess Session)`. -/
def ContextWithSession (ctx : Context) (sess : Session) : Context :=
  (SessionKey, .session sess) :: ctx

/-- The parts of an `*http.Request` the middleware and the managers read. -/
structure Request where
  Authorization : String
  ctx : Context
  Body : String
deriving DecidableEq, Repr

/-- The method `r.WithContext(ctx)`. -/
def Request.WithContext (r : Request) (ctx : Context) : Request :=
  { r with ctx := ctx }

/-- The method `Check` of the interface `session.SessionsManager`. -/
structure SessionsManager where
  Check : Request → Session × Option Error

/-- An `http.Handler`: what `ServeHTTP(w, r)` does to the response writer and
to the rest of the world, of type `τ`. -/
abbrev Handler (τ : Type) := ResponseWriter × τ → Request → ResponseWriter × τ

/-- The function `Auth(sm session.SessionsManager, next http.Handler) http.Handler`. -/
def Auth {τ : Type} (sm : SessionsManager) (next : Handler τ) : Handler τ :=
  fun world r =>
    match sm.Check r with
    | (_, some _) => (SendJSONMessage world.1 "unauthorized" StatusUnauthorized, world.2)
    | (sess, none) =>
      let ctx := ContextWithSession r.ctx sess
      next world (r.WithContext ctx)

/-- A handler that only counts how often it is invoked. -/
def countingHandler : Handler Nat :=
  fun world _ => (world.1, world.2 + 1)

/-- A sample session manager: it accepts the header `"Bearer h.c.s"` alone. -/
def sampleSessionsManager : SessionsManager where
  Check := fun r =>
    if r.Authorization = "Bearer h.c.s" then (NewSession "h.c.s" sampleUser, none)
    else (Session.zero, some ErrNoAuth)

/-! ## The other methods of the in-memory repository, and its lock -/

/-- The method `(repo *PostMemoryRepository) GetAll() ([]Post, error)`. Go
leaves the order of a `range` over a map open; here it is the order of the
entries. -/
def PostMemoryRepository.GetAll (repo : PostMemoryRepository) :
    Ret (List Post) PostMemoryRepository :=
  ⟨repo.id2Post.map Prod.snd, none, repo⟩

/-- The method `GetByCategory(category string) ([]Post, error)`. -/
def PostMemoryRepository.GetByCategory (repo : PostMemoryRepository) (category : String) :
    Ret (List Post) PostMemoryRepository :=
  ⟨(repo.id2Post.map Prod.snd).filter fun post => decide (post.Category = category), none, repo⟩

/-- The method `GetUserPosts(username string) ([]Post, error)`. -/
def PostMemoryRepository.GetUserPosts (repo : PostMemoryRepository) (username : String) :
    Ret (List Post) PostMemoryRepository :=
  ⟨(repo.id2Post.map Prod.snd).filter fun p => decide (p.Author.Username = username), none, repo⟩

/-- The method `(repo *PostMemoryRepository) Add(post Post) (Post, error)`.
`uuid` is what `uuid.NewUUID()` returns, as a string, and `now` is what
`CreationTime()` returns. -/
def PostMemoryRepository.Add (repo : PostMemoryRepository) (post : Post)
    (uuid : Except Error String) (now : String) : Ret Post PostMemoryRepository :=
  match uuid with
  | .error err => ⟨Post.zero, some (.wrap "in post add: " err), repo⟩
  | .ok uid =>
    let post := { post with ID := uid }
    let post := { post with Created := now }
    ⟨post, none, { repo with id2Post := mapStore post.ID post repo.id2Post }⟩

/-- The two ways a method holds `repo.mu`: `mu.RLock()` or `mu.Lock()`. -/
inductive LockKind where
  | read
  | write
deriving DecidableEq, Repr

/-- A call of a method of `PostMemoryRepository`, with its arguments. -/
inductive RepoCall where
  | GetAll
  | GetByID (id : String)
  | GetByCategory (category : String)
  | Add (post : Post) (uuid : Except Error String) (now : String)
  | AddComment (postID : String) (comm : Comment) (uuid : Except Error String) (now : String)
  | DeleteComment (postID commentID userID : String)
  | Upvote (postID userID : String)
  | Downvote (postID userID : String)
  | Unvote (postID userID : String)
  | Delete (postID userID : String)
  | GetUserPosts (username : String)

/-- The lock the method takes in its first statement. -/
def RepoCall.lock : RepoCall → LockKind
  | .GetAll => .read
  | .GetByID _ => .read
  | .GetByCategory _ => .read
  | .Add _ _ _ => .write
  | .AddComment _ _ _ _ => .write
  | .DeleteComment _ _ _ => .write
  | .Upvote _ _ => .write
  | .Downvote _ _ => .write
  | .Unvote _ _ => .write
  | .Delete _ _ => .write
  | .GetUserPosts _ => .read

/-- The repository after the call. -/
def RepoCall.stateAfter (repo : PostMemoryRepository) : RepoCall → PostMemoryRepository
  | .GetAll => repo.GetAll.state
  | .GetByID id => (repo.GetByID id).state
  | .GetByCategory category => (repo.GetByCategory category).state
  | .Add post uuid now => (repo.Add post uuid now).state
  | .AddComment postID comm uuid now => (repo.AddComment postID comm uuid now).state
  | .DeleteComment postID commentID userID => (repo.DeleteComment postID commentID userID).state
  | .Upvote postID userID => (repo.Upvote postID userID).state
  | .Downvote postID userID => (repo.Downvote postID userID).state
  | .Unvote postID userID => (repo.Unvote postID userID).state
  | .Delete postID userID => (repo.Delete postID userID).state
  | .GetUserPosts username => (repo.GetUserPosts username).state

/-! ## The ledger as a map -/

/-- The ledger read as a finite map from user id to vote value: the value of
the vote `findUserVote` finds for the user. -/
def ledgerMap (votes : List Vote) (userID : String) : Option Int :=
  (findVote userID votes).map fun r => r.1.Value

/-- The user a ledger call is made for. -/
def Call.user : Call → String
  | .upvote u => u
  | .downvote u => u
  | .unvote u => u

/-- The ledger operations on maps, in the words of the specification:
`Upvote(u)` is `m[u := +1]`, `Downvote(u)` is `m[u := -1]`, and `Unvote(u)` is
`m` with `u` erased. -/
def specApply (m : String → Option Int) : Call → String → Option Int
  | .upvote u => Function.update m u (some 1)
  | .downvote u => Function.update m u (some (-1))
  | .unvote u => Function.update m u none

/-- The last call of a sequence made for the user, if any. -/
def lastCall (userID : String) (calls : List Call) : Option Call :=
  (calls.filter fun c => decide (c.user = userID)).getLast?

/-- Claims of a token without an `exp` entry. -/
def claimsWithoutExp : MapClaims :=
  [("user", .user sampleUser), ("iat", .num (Time.Unix 1000000000000))]

/-- Claims of a token whose `exp` entry is a string. -/
def claimsWithTextExp : MapClaims :=
  [("user", .user sampleUser), ("iat", .num (Time.Unix 1000000000000)),
   ("exp", .str "tomorrow")]

/-- A toy JWT codec that reads the token string `"h.c.s"` back with the
signing method `method`. -/
def toyCodecWith (method : SigningMethod) (claims : MapClaims) : JWTCodec where
  sign := fun _ _ _ => .ok "h.c.s"
  decode := fun s => if s = "h.c.s" then some (method, claims) else none
  verify := fun _ _ _ => true

/-- The sample claims as the JWT library reads them back from the token: the
`user` entry went through JSON, which carries `id` and `username` and drops
the unexported `password`. -/
def sampleClaimsRead : MapClaims :=
  [("user", .user { sampleUser with password := "" }),
   ("iat", .num (Time.Unix 1000000000000)),
   ("exp", .num (Time.Unix (1000000000005 + TokenExpirationTime)))]

/-! ## The loop of `findUserVote` -/

theorem findVote_eq_none {u : String} {votes : List Vote} :
    findVote u votes = none ↔ ∀ w ∈ votes, w.UserID ≠ u := by
  induction votes with
  | nil => simp [findVote]
  | cons v vs ih =>
    by_cases h : v.UserID = u
    · simp [findVote, h]
    · simp [findVote, h, ih]

theorem findVote_append {u : String} {pre : List Vote} {v : Vote} (post : List Vote)
    (hpre : ∀ w ∈ pre, w.UserID ≠ u) (hv : v.UserID = u) :
    findVote u (pre ++ v :: post) = some (v, pre.length) := by
  induction pre with
  | nil => simp [findVote, hv]
  | cons a as ih =>
    have ha : a.UserID ≠ u := hpre a (List.mem_cons_self _ _)
    have has : ∀ w ∈ as, w.UserID ≠ u := fun w hw => hpre w (List.mem_cons_of_mem _ hw)
    simp [findVote, ha, ih has]

theorem findVote_some {u : String} {votes : List Vote} {v : Vote} {i : Nat}
    (h : findVote u votes = some (v, i)) :
    ∃ pre post, votes = pre ++ v :: post ∧ pre.length = i ∧
      (∀ w ∈ pre, w.UserID ≠ u) ∧ v.UserID = u := by
  induction votes generalizing i with
  | nil => simp [findVote] at h
  | cons a as ih =>
    by_cases ha : a.UserID = u
    · simp [findVote, ha] at h
      obtain ⟨rfl, rfl⟩ := h
      exact ⟨[], as, by simp, by simp, by simp, ha⟩
    · simp [findVote, ha] at h
      obtain ⟨r, i0, hr, rfl, rfl⟩ := h
      obtain ⟨pre, post, hvotes, hlen, hpre, hv⟩ := ih hr
      refine ⟨a :: pre, post, by simp [hvotes], by simp [hlen], ?_, hv⟩
      intro w hw
      rcases List.mem_cons.mp hw with rfl | hw
      · exact ha
      · exact hpre w hw

/-! ## Slice updates -/

theorem set_length_append (pre : List Vote) (v x : Vote) (post : List Vote) :
    (pre ++ v :: post).set pre.length x = pre ++ x :: post := by
  induction pre with
  | nil => simp
  | cons a as ih => simp [ih]

theorem removeSwap_append (pre : List Vote) (v : Vote) (post : List Vote) :
    (((pre ++ v :: post).set pre.length
        ((pre ++ v :: post).getD ((pre ++ v :: post).length - 1) v)).take
      ((pre ++ v :: post).length - 1)) = swapOut pre post := by
  rw [set_length_append]
  rcases List.eq_nil_or_concat post with rfl | ⟨body, l, rfl⟩
  · simp [swapOut]
  · rw [List.concat_eq_append]
    have hlen : (pre ++ v :: (body ++ [l])).length - 1 = (pre ++ v :: body).length := by
      simp
    have hget : (pre ++ v :: (body ++ [l])).getD ((pre ++ v :: (body ++ [l])).length - 1) v = l := by
      rw [hlen]
      have : pre ++ v :: (body ++ [l]) = (pre ++ v :: body) ++ [l] := by simp
      rw [this, List.getD_eq_getElem?_getD, List.getElem?_append_right (le_refl _)]
      simp
    rw [hget, hlen]
    have : pre ++ l :: (body ++ [l]) = (pre ++ l :: body) ++ [l] := by simp
    rw [this]
    have hl2 : (pre ++ v :: body).length = (pre ++ l :: body).length := by simp
    rw [hl2, List.take_left]
    simp [swapOut]

theorem swapOut_perm (pre : List Vote) (v : Vote) (post : List Vote) :
    List.Perm (v :: swapOut pre post) (pre ++ v :: post) := by
  rcases List.eq_nil_or_concat post with rfl | ⟨body, l, rfl⟩
  · simp only [swapOut, List.getLast?_nil]
    exact (List.perm_append_singleton v pre).symm
  · rw [List.concat_eq_append]
    have h1 : swapOut pre (body ++ [l]) = pre ++ l :: body := by simp [swapOut]
    rw [h1]
    have h2 : List.Perm (body ++ [l]) (l :: body) := List.perm_append_singleton l body
    have h3 : List.Perm (pre ++ v :: (body ++ [l])) (pre ++ v :: l :: body) :=
      (h2.cons v).append_left pre
    have h4 : List.Perm (pre ++ v :: l :: body) (v :: (pre ++ l :: body)) := List.perm_middle
    exact (h3.trans h4).symm

/-! ## The operations, case by case -/

theorem sync_eq (p : Post) :
    p.SyncUpvotePercentage = { p with UpvotePercentage := percentageOf p.Score p.Votes } := by
  unfold Post.SyncUpvotePercentage percentageOf
  by_cases h : p.Votes.length ≠ 0
  · rw [if_pos h, if_pos h]
  · rw [if_neg h, if_neg h]

theorem changeVotes_absent (p : Post) (u : String) (d : Int)
    (h : ∀ w ∈ p.Votes, w.UserID ≠ u) :
    p.changeVotes u d =
      { p with Votes := p.Votes ++ [⟨u, d⟩], Score := p.Score + d,
               UpvotePercentage := percentageOf (p.Score + d) (p.Votes ++ [⟨u, d⟩]) } := by
  have hf : p.findUserVote u = none := findVote_eq_none.mpr h
  simp only [Post.changeVotes, hf, sync_eq]

theorem changeVotes_same (p : Post) (u : String) (d : Int) (pre post : List Vote) (v : Vote)
    (hvotes : p.Votes = pre ++ v :: post) (hpre : ∀ w ∈ pre, w.UserID ≠ u)
    (hv : v.UserID = u) (hd : v.Value = d) :
    p.changeVotes u d = p := by
  have hf : p.findUserVote u = some (v, pre.length) := by
    unfold Post.findUserVote
    rw [hvotes]
    exact findVote_append post hpre hv
  simp only [Post.changeVotes, hf, hd, if_true]

theorem changeVotes_other (p : Post) (u : String) (d : Int) (pre post : List Vote) (v : Vote)
    (hvotes : p.Votes = pre ++ v :: post) (hpre : ∀ w ∈ pre, w.UserID ≠ u)
    (hv : v.UserID = u) (hd : v.Value ≠ d) :
    p.changeVotes u d =
      { p with Votes := pre ++ ⟨u, d⟩ :: post, Score := p.Score - v.Value + d,
               UpvotePercentage := percentageOf (p.Score - v.Value + d) (pre ++ ⟨u, d⟩ :: post) } := by
  have hf : p.findUserVote u = some (v, pre.length) := by
    unfold Post.findUserVote
    rw [hvotes]
    exact findVote_append post hpre hv
  simp only [Post.changeVotes, hf, hd, if_false, sync_eq, hvotes, set_length_append, hv]

theorem Unvote_absent (p : Post) (u : String) (h : ∀ w ∈ p.Votes, w.UserID ≠ u) :
    p.Unvote u = p := by
  have hf : p.findUserVote u = none := findVote_eq_none.mpr h
  simp only [Post.Unvote, hf]

theorem Unvote_present (p : Post) (u : String) (pre post : List Vote) (v : Vote)
    (hvotes : p.Votes = pre ++ v :: post) (hpre : ∀ w ∈ pre, w.UserID ≠ u)
    (hv : v.UserID = u) :
    p.Unvote u =
      { p with Votes := swapOut pre post, Score := p.Score - v.Value,
               UpvotePercentage := percentageOf (p.Score - v.Value) (swapOut pre post) } := by
  have hf : p.findUserVote u = some (v, pre.length) := by
    unfold Post.findUserVote
    rw [hvotes]
    exact findVote_append post hpre hv
  simp only [Post.Unvote, hf, sync_eq, hvotes, List.length_set, removeSwap_append]

/-- Either the user has no vote, or the ledger splits at the user's first vote. -/
theorem votes_cases (votes : List Vote) (u : String) :
    (∀ w ∈ votes, w.UserID ≠ u) ∨
    ∃ pre v post, votes = pre ++ v :: post ∧ (∀ w ∈ pre, w.UserID ≠ u) ∧ v.UserID = u := by
  cases h : findVote u votes with
  | none => exact Or.inl (findVote_eq_none.mp h)
  | some r =>
    obtain ⟨v, i⟩ := r
    obtain ⟨pre, post, hvotes, _, hpre, hv⟩ := findVote_some h
    exact Or.inr ⟨pre, v, post, hvotes, hpre, hv⟩

/-! ## Invariants of the ledger -/

theorem sumValues_append (a b : List Vote) :
    sumValues (a ++ b) = sumValues a + sumValues b := by
  simp [sumValues]

theorem sumValues_cons (v : Vote) (vs : List Vote) :
    sumValues (v :: vs) = v.Value + sumValues vs := by
  simp [sumValues]

theorem sumValues_swapOut (pre : List Vote) (v : Vote) (post : List Vote) :
    sumValues (swapOut pre post) = sumValues (pre ++ v :: post) - v.Value := by
  have h := ((swapOut_perm pre v post).map Vote.Value).sum_eq
  simp only [List.map_cons, List.sum_cons] at h
  unfold sumValues
  omega

theorem changeVotes_score (p : Post) (u : String) (d : Int)
    (h : p.Score = sumValues p.Votes) :
    (p.changeVotes u d).Score = sumValues (p.changeVotes u d).Votes := by
  rcases votes_cases p.Votes u with habs | ⟨pre, v, post, hvotes, hpre, hv⟩
  · rw [changeVotes_absent p u d habs]
    simp only [sumValues_append, sumValues_cons, h]
    simp [sumValues]
  · by_cases hd : v.Value = d
    · rw [changeVotes_same p u d pre post v hvotes hpre hv hd]
      exact h
    · rw [changeVotes_other p u d pre post v hvotes hpre hv hd]
      simp only [h, hvotes, sumValues_append, sumValues_cons]
      omega

theorem Unvote_score (p : Post) (u : String) (h : p.Score = sumValues p.Votes) :
    (p.Unvote u).Score = sumValues (p.Unvote u).Votes := by
  rcases votes_cases p.Votes u with habs | ⟨pre, v, post, hvotes, hpre, hv⟩
  · rw [Unvote_absent p u habs]
    exact h
  · rw [Unvote_present p u pre post v hvotes hpre hv]
    simp only [h, hvotes, sumValues_swapOut pre v post]

theorem changeVotes_unit (p : Post) (u : String) (d : Int) (hd : d = 1 ∨ d = -1)
    (h : UnitValues p.Votes) : UnitValues (p.changeVotes u d).Votes := by
  rcases votes_cases p.Votes u with habs | ⟨pre, v, post, hvotes, hpre, hv⟩
  · rw [changeVotes_absent p u d habs]
    intro w hw
    rcases List.mem_append.mp hw with hw | hw
    · exact h w hw
    · rw [List.mem_singleton.mp hw]
      exact hd
  · by_cases hvd : v.Value = d
    · rw [changeVotes_same p u d pre post v hvotes hpre hv hvd]
      exact h
    · rw [changeVotes_other p u d pre post v hvotes hpre hv hvd]
      intro w hw
      rcases List.mem_append.mp hw with hw | hw
      · exact h w (by rw [hvotes]; exact List.mem_append_left _ hw)
      · rcases List.mem_cons.mp hw with rfl | hw
        · exact hd
        · exact h w (by rw [hvotes]; exact List.mem_append_right _ (List.mem_cons_of_mem _ hw))

theorem Unvote_unit (p : Post) (u : String) (h : UnitValues p.Votes) :
    UnitValues (p.Unvote u).Votes := by
  rcases votes_cases p.Votes u with habs | ⟨pre, v, post, hvotes, hpre, hv⟩
  · rw [Unvote_absent p u habs]
    exact h
  · rw [Unvote_present p u pre post v hvotes hpre hv]
    intro w hw
    have hmem : w ∈ pre ++ v :: post :=
      (swapOut_perm pre v post).subset (List.mem_cons_of_mem _ hw)
    exact h w (by rw [hvotes]; exact hmem)

theorem changeVotes_distinct (p : Post) (u : String) (d : Int)
    (h : DistinctUsers p.Votes) : DistinctUsers (p.changeVotes u d).Votes := by
  rcases votes_cases p.Votes u with habs | ⟨pre, v, post, hvotes, hpre, hv⟩
  · rw [changeVotes_absent p u d habs]
    unfold DistinctUsers at h ⊢
    simp only [List.map_append, List.map_cons, List.map_nil]
    refine List.Nodup.append h (List.nodup_singleton _) ?_
    intro x hx hx2
    obtain ⟨w, hw, rfl⟩ := List.mem_map.mp hx
    exact habs w hw (List.mem_singleton.mp hx2)
  · by_cases hvd : v.Value = d
    · rw [changeVotes_same p u d pre post v hvotes hpre hv hvd]
      exact h
    · rw [changeVotes_other p u d pre post v hvotes hpre hv hvd]
      unfold DistinctUsers at h ⊢
      rw [hvotes] at h
      simpa [hv] using h

theorem Unvote_distinct (p : Post) (u : String) (h : DistinctUsers p.Votes) :
    DistinctUsers (p.Unvote u).Votes := by
  rcases votes_cases p.Votes u with habs | ⟨pre, v, post, hvotes, hpre, hv⟩
  · rw [Unvote_absent p u habs]
    exact h
  · rw [Unvote_present p u pre post v hvotes hpre hv]
    unfold DistinctUsers at h ⊢
    rw [hvotes] at h
    have hperm := (swapOut_perm pre v post).map Vote.UserID
    have hnd : (List.map Vote.UserID (v :: swapOut pre post)).Nodup := hperm.nodup_iff.mpr h
    exact (List.nodup_cons.mp hnd).2

theorem changeVotes_synced (p : Post) (u : String) (d : Int)
    (h : p.UpvotePercentage = percentageOf p.Score p.Votes) :
    (p.changeVotes u d).UpvotePercentage =
      percentageOf (p.changeVotes u d).Score (p.changeVotes u d).Votes := by
  rcases votes_cases p.Votes u with habs | ⟨pre, v, post, hvotes, hpre, hv⟩
  · rw [changeVotes_absent p u d habs]
  · by_cases hvd : v.Value = d
    · rw [changeVotes_same p u d pre post v hvotes hpre hv hvd]
      exact h
    · rw [changeVotes_other p u d pre post v hvotes hpre hv hvd]

theorem Unvote_synced (p : Post) (u : String)
    (h : p.UpvotePercentage = percentageOf p.Score p.Votes) :
    (p.Unvote u).UpvotePercentage = percentageOf (p.Unvote u).Score (p.Unvote u).Votes := by
  rcases votes_cases p.Votes u with habs | ⟨pre, v, post, hvotes, hpre, hv⟩
  · rw [Unvote_absent p u habs]
    exact h
  · rw [Unvote_present p u pre post v hvotes hpre hv]

theorem InitPost_votes (post : Post) (usr : User) :
    (InitPost post usr).Votes = [⟨usr.ID, 1⟩] ∧ (InitPost post usr).Score = 1 ∧
      (InitPost post usr).UpvotePercentage = 100 := by
  have hp : percentageOf 1 [(⟨usr.ID, 1⟩ : Vote)] = 100 := by
    simp [percentageOf, Int.tdiv]
  unfold InitPost
  simp only [sync_eq]
  by_cases h : post.Type_ = TEXT
  · simp only [h, if_true]
    exact ⟨trivial, trivial, hp⟩
  · simp only [h, if_false]
    exact ⟨trivial, trivial, hp⟩

/-- A property kept by every call holds after any sequence of calls. -/
theorem runCalls_keeps (P : Post → Prop) (hstep : ∀ p c, P p → P (Call.apply p c))
    (calls : List Call) : ∀ p, P p → P (runCalls p calls) := by
  induction calls with
  | nil => intro p hp; exact hp
  | cons c cs ih =>
    intro p hp
    exact ih (Call.apply p c) (hstep p c hp)

theorem apply_score (p : Post) (c : Call) (h : p.Score = sumValues p.Votes) :
    (Call.apply p c).Score = sumValues (Call.apply p c).Votes := by
  cases c with
  | upvote u => exact changeVotes_score p u 1 h
  | downvote u => exact changeVotes_score p u (-1) h
  | unvote u => exact Unvote_score p u h

theorem apply_unit (p : Post) (c : Call) (h : UnitValues p.Votes) :
    UnitValues (Call.apply p c).Votes := by
  cases c with
  | upvote u => exact changeVotes_unit p u 1 (Or.inl rfl) h
  | downvote u => exact changeVotes_unit p u (-1) (Or.inr rfl) h
  | unvote u => exact Unvote_unit p u h

theorem apply_synced (p : Post) (c : Call)
    (h : p.UpvotePercentage = percentageOf p.Score p.Votes) :
    (Call.apply p c).UpvotePercentage =
      percentageOf (Call.apply p c).Score (Call.apply p c).Votes := by
  cases c with
  | upvote u => exact changeVotes_synced p u 1 h
  | downvote u => exact changeVotes_synced p u (-1) h
  | unvote u => exact Unvote_synced p u h

/-- In a ledger of `+1` and `-1` votes, the sum of the values plus the number
of votes is twice the number of `+1` votes. -/
theorem sum_add_length (votes : List Vote) (h : UnitValues votes) :
    sumValues votes + (votes.length : Int) = 2 * (upvoteCount votes : Int) := by
  induction votes with
  | nil => simp [sumValues, upvoteCount]
  | cons v vs ih =>
    have hvs : UnitValues vs := fun w hw => h w (List.mem_cons_of_mem _ hw)
    have ih2 := ih hvs
    have hv := h v (List.mem_cons_self _ _)
    rw [sumValues_cons]
    unfold upvoteCount at ih2 ⊢
    rcases hv with hv | hv
    · rw [List.countP_cons_of_pos _ _ (by simp [hv])]
      simp only [List.length_cons]
      push_cast
      omega
    · rw [List.countP_cons_of_neg _ _ (by simp [hv])]
      simp only [List.length_cons]
      push_cast
      omega

theorem upvoteCount_le (votes : List Vote) : upvoteCount votes ≤ votes.length :=
  List.countP_le_length _

theorem tdiv_two_mul (c : Nat) : Int.tdiv (2 * (c : Int)) 2 = (c : Int) := by
  rw [Int.tdiv_eq_ediv (by omega) (by omega)]
  omega

theorem InitPost_unit (post : Post) (usr : User) : UnitValues (InitPost post usr).Votes := by
  rw [(InitPost_votes post usr).1]
  intro w hw
  rw [List.mem_singleton.mp hw]
  exact Or.inl rfl

theorem InitPost_score (post : Post) (usr : User) :
    (InitPost post usr).Score = sumValues (InitPost post usr).Votes := by
  rw [(InitPost_votes post usr).1, (InitPost_votes post usr).2.1]
  simp [sumValues]

theorem changeVotes_idem (p : Post) (u : String) (d : Int) :
    (p.changeVotes u d).changeVotes u d = p.changeVotes u d := by
  rcases votes_cases p.Votes u with habs | ⟨pre, v, post, hvotes, hpre, hv⟩
  · rw [changeVotes_absent p u d habs]
    exact changeVotes_same _ u d p.Votes [] ⟨u, d⟩ rfl habs rfl rfl
  · by_cases hvd : v.Value = d
    · rw [changeVotes_same p u d pre post v hvotes hpre hv hvd]
      exact changeVotes_same p u d pre post v hvotes hpre hv hvd
    · rw [changeVotes_other p u d pre post v hvotes hpre hv hvd]
      exact changeVotes_same _ u d pre post ⟨u, d⟩ rfl hpre rfl rfl

/-! ## The claims -/

/-- C1: for every post produced by `InitPost` and every finite sequence of
`Upvote`, `Downvote` and `Unvote` calls with arbitrary user ids, the stored
`Score` equals the sum of the `Value` fields of all entries of `Votes` after
each call, that is, after every prefix of the sequence. -/
theorem score_eq_sum_after_each_call (post : Post) (usr : User) (calls : List Call) (k : Nat) :
    (runCalls (InitPost post usr) (calls.take k)).Score =
      ((runCalls (InitPost post usr) (calls.take k)).Votes.map Vote.Value).sum :=
  runCalls_keeps (fun p => p.Score = sumValues p.Votes) apply_score (calls.take k)
    (InitPost post usr) (InitPost_score post usr)

/-- C2: the ledger holds at most one vote per user. `InitPost` produces a
`Votes` list with pairwise distinct `UserID`s, and for every post whose `Votes`
have pairwise distinct `UserID`s, `Upvote`, `Downvote` and `Unvote`, for any
user id, return a post whose `Votes` again have pairwise distinct `UserID`s. -/
theorem one_vote_per_user :
    (∀ (post : Post) (usr : User), ((InitPost post usr).Votes.map Vote.UserID).Nodup) ∧
    (∀ (p : Post) (u : String), (p.Votes.map Vote.UserID).Nodup →
      ((p.Upvote u).Votes.map Vote.UserID).Nodup ∧
      ((p.Downvote u).Votes.map Vote.UserID).Nodup ∧
      ((p.Unvote u).Votes.map Vote.UserID).Nodup) := by
  constructor
  · intro post usr
    rw [(InitPost_votes post usr).1]
    simp
  · intro p u h
    exact ⟨changeVotes_distinct p u 1 h, changeVotes_distinct p u (-1) h,
      Unvote_distinct p u h⟩

/-- Witness of C2 on the sample post and the user `"4"`. -/
theorem one_vote_per_user_witness :
    (samplePost.Votes.map Vote.UserID).Nodup ∧
      ((samplePost.Upvote "4").Votes.map Vote.UserID).Nodup ∧
      ((samplePost.Downvote "4").Votes.map Vote.UserID).Nodup ∧
      ((samplePost.Unvote "4").Votes.map Vote.UserID).Nodup :=
  ⟨by decide, one_vote_per_user.2 samplePost "4" (by decide)⟩

/-- C3: the upvote percentage is never stale. In every state reachable from
`InitPost` by any sequence of `Upvote`, `Downvote` and `Unvote` calls,
`UpvotePercentage` equals `((Score + len(Votes)) / 2) * 100 / len(Votes)`, with
Go's integer division, when `Votes` is non-empty, and `0` when `Votes` is
empty, computed from the current `Score` and `Votes`. -/
theorem percentage_never_stale (post : Post) (usr : User) (calls : List Call) :
    (runCalls (InitPost post usr) calls).UpvotePercentage =
      if (runCalls (InitPost post usr) calls).Votes.length ≠ 0 then
        Int.tdiv
          (Int.tdiv ((runCalls (InitPost post usr) calls).Score +
              ((runCalls (InitPost post usr) calls).Votes.length : Int)) 2 * 100)
          ((runCalls (InitPost post usr) calls).Votes.length : Int)
      else 0 := by
  have h := runCalls_keeps (fun p => p.UpvotePercentage = percentageOf p.Score p.Votes)
    apply_synced calls (InitPost post usr) (by
      show (InitPost post usr).UpvotePercentage = _
      unfold InitPost
      rw [sync_eq])
  exact h

/-- C4: in every state reachable from `InitPost` by any sequence of `Upvote`,
`Downvote` and `Unvote` calls, the derived upvote count
`(Score + len(Votes)) / 2` lies between `0` and `len(Votes)`. -/
theorem upvote_count_bounds (post : Post) (usr : User) (calls : List Call) :
    0 ≤ Int.tdiv ((runCalls (InitPost post usr) calls).Score +
          ((runCalls (InitPost post usr) calls).Votes.length : Int)) 2 ∧
    Int.tdiv ((runCalls (InitPost post usr) calls).Score +
          ((runCalls (InitPost post usr) calls).Votes.length : Int)) 2 ≤
      ((runCalls (InitPost post usr) calls).Votes.length : Int) := by
  have h := runCalls_keeps (fun p => p.Score = sumValues p.Votes ∧ UnitValues p.Votes)
    (fun p c hp => ⟨apply_score p c hp.1, apply_unit p c hp.2⟩) calls (InitPost post usr)
    ⟨InitPost_score post usr, InitPost_unit post usr⟩
  obtain ⟨hs, hu⟩ := h
  rw [hs, sum_add_length _ hu, tdiv_two_mul]
  have := upvoteCount_le (runCalls (InitPost post usr) calls).Votes
  constructor
  · omega
  · exact_mod_cast this

/-- C5: the percentage formula is exact. For every post whose votes all have
`Value` `+1` or `-1` and whose `Score` equals the sum of the vote values,
`SyncUpvotePercentage` sets `UpvotePercentage` to the number of `+1` votes
times `100` divided by `len(Votes)`, with integer division, and to `0` when
there are no votes; for votes `[+1,+1,+1,-1]` with `Score` `2` it sets `75`. -/
theorem percentage_formula_exact :
    (∀ p : Post, (∀ v ∈ p.Votes, v.Value = 1 ∨ v.Value = -1) →
        p.Score = (p.Votes.map Vote.Value).sum →
        p.SyncUpvotePercentage.UpvotePercentage =
          if p.Votes.length = 0 then 0
          else (((p.Votes.countP fun v => decide (v.Value = 1)) * 100 / p.Votes.length : Nat) : Int)) ∧
    (∀ p : Post, p.Votes.map Vote.Value = [1, 1, 1, -1] → p.Score = 2 →
        p.SyncUpvotePercentage.UpvotePercentage = 75) := by
  constructor
  · intro p hu hs
    rw [sync_eq]
    show percentageOf p.Score p.Votes = _
    unfold percentageOf
    by_cases hlen : p.Votes.length = 0
    · simp [hlen]
    · have h2 : sumValues p.Votes + (p.Votes.length : Int) = 2 * (upvoteCount p.Votes : Int) :=
        sum_add_length _ hu
      have hs2 : p.Score = sumValues p.Votes := hs
      rw [if_pos hlen, if_neg hlen, hs2, h2, tdiv_two_mul]
      rw [Int.ofNat_tdiv]
      rfl
  · intro p hv hs
    have hlen : p.Votes.length = 4 := by
      have := congrArg List.length hv
      simpa using this
    rw [sync_eq]
    show percentageOf p.Score p.Votes = _
    unfold percentageOf
    rw [hs, hlen]
    decide

/-- Witness of C5 on the sample post, whose votes are `[+1,+1,+1,-1]`. -/
theorem percentage_formula_exact_witness :
    (∀ v ∈ samplePost.Votes, v.Value = 1 ∨ v.Value = -1) ∧
      samplePost.Score = (samplePost.Votes.map Vote.Value).sum ∧
      samplePost.Votes.map Vote.Value = [1, 1, 1, -1] ∧ samplePost.Score = 2 ∧
      (samplePost.SyncUpvotePercentage.UpvotePercentage =
        if samplePost.Votes.length = 0 then 0
        else (((samplePost.Votes.countP fun v => decide (v.Value = 1)) * 100 /
          samplePost.Votes.length : Nat) : Int)) ∧
      samplePost.SyncUpvotePercentage.UpvotePercentage = 75 :=
  ⟨by decide, by decide, by decide, by decide,
    percentage_formula_exact.1 samplePost (by decide) (by decide),
    percentage_formula_exact.2 samplePost (by decide) (by decide)⟩

/-- C6: `Upvote` is idempotent. For every post and every user id, calling
`Upvote` twice in a row for that user yields the same post, in particular the
same `Votes`, `Score` and `UpvotePercentage`, as calling it once; the same
holds for `Downvote`. -/
theorem vote_idempotent (p : Post) (u : String) :
    (p.Upvote u).Upvote u = p.Upvote u ∧ (p.Downvote u).Downvote u = p.Downvote u :=
  ⟨changeVotes_idem p u 1, changeVotes_idem p u (-1)⟩

/-- C7: opposite-vote transition. For every post in which the user's first
vote `v` has `Value` `-1`, `Upvote` by that user increases `Score` by exactly
`2`, leaves `len(Votes)` unchanged and sets that vote's `Value` to `+1` in
place; symmetrically, `Downvote` on an existing `+1` vote decreases `Score` by
exactly `2`, with the vote count unchanged and the value set to `-1` in place. -/
theorem opposite_vote_transition (p : Post) (u : String) (pre post : List Vote) (v : Vote)
    (hvotes : p.Votes = pre ++ v :: post) (hpre : ∀ w ∈ pre, w.UserID ≠ u)
    (hv : v.UserID = u) :
    (v.Value = -1 →
      (p.Upvote u).Score = p.Score + 2 ∧
      (p.Upvote u).Votes.length = p.Votes.length ∧
      (p.Upvote u).Votes = pre ++ { UserID := u, Value := 1 } :: post) ∧
    (v.Value = 1 →
      (p.Downvote u).Score = p.Score - 2 ∧
      (p.Downvote u).Votes.length = p.Votes.length ∧
      (p.Downvote u).Votes = pre ++ { UserID := u, Value := -1 } :: post) := by
  constructor
  · intro hval
    have hd : v.Value ≠ 1 := by rw [hval]; decide
    unfold Post.Upvote
    rw [changeVotes_other p u 1 pre post v hvotes hpre hv hd]
    refine ⟨?_, ?_, rfl⟩
    · show p.Score - v.Value + 1 = p.Score + 2
      rw [hval]
      omega
    · show (pre ++ (⟨u, 1⟩ : Vote) :: post).length = p.Votes.length
      rw [hvotes]
      simp
  · intro hval
    have hd : v.Value ≠ -1 := by rw [hval]; decide
    unfold Post.Downvote
    rw [changeVotes_other p u (-1) pre post v hvotes hpre hv hd]
    refine ⟨?_, ?_, rfl⟩
    · show p.Score - v.Value + -1 = p.Score - 2
      rw [hval]
      omega
    · show (pre ++ (⟨u, -1⟩ : Vote) :: post).length = p.Votes.length
      rw [hvotes]
      simp

/-- Witness of C7: on the sample post user `"4"` holds a `-1` vote and user
`"2"` a `+1` vote. -/
theorem opposite_vote_transition_witness :
    ((samplePost.Upvote "4").Score = samplePost.Score + 2 ∧
      (samplePost.Upvote "4").Votes.length = samplePost.Votes.length ∧
      (samplePost.Upvote "4").Votes = [⟨"1", 1⟩, ⟨"2", 1⟩, ⟨"3", 1⟩] ++ ⟨"4", 1⟩ :: []) ∧
    ((samplePost.Downvote "2").Score = samplePost.Score - 2 ∧
      (samplePost.Downvote "2").Votes.length = samplePost.Votes.length ∧
      (samplePost.Downvote "2").Votes = [⟨"1", 1⟩] ++ ⟨"2", -1⟩ :: [⟨"3", 1⟩, ⟨"4", -1⟩]) :=
  ⟨(opposite_vote_transition samplePost "4" [⟨"1", 1⟩, ⟨"2", 1⟩, ⟨"3", 1⟩] [] ⟨"4", -1⟩
      (by decide) (by decide) (by decide)).1 (by decide),
   (opposite_vote_transition samplePost "2" [⟨"1", 1⟩] [⟨"3", 1⟩, ⟨"4", -1⟩] ⟨"2", 1⟩
      (by decide) (by decide) (by decide)).2 (by decide)⟩

/-- C8: new vote. For every post in which the user has no vote, `Upvote`
(resp. `Downvote`) appends exactly one vote with that `UserID` and `Value`
`+1` (resp. `-1`) at the end of `Votes`, leaves all existing votes unchanged
and in the same order, and adds `+1` (resp. `-1`) to `Score`. -/
theorem new_vote_appended (p : Post) (u : String) (h : ∀ w ∈ p.Votes, w.UserID ≠ u) :
    ((p.Upvote u).Votes = p.Votes ++ [{ UserID := u, Value := 1 }] ∧
      (p.Upvote u).Score = p.Score + 1) ∧
    ((p.Downvote u).Votes = p.Votes ++ [{ UserID := u, Value := -1 }] ∧
      (p.Downvote u).Score = p.Score + -1) := by
  unfold Post.Upvote Post.Downvote
  rw [changeVotes_absent p u 1 h, changeVotes_absent p u (-1) h]
  exact ⟨⟨rfl, rfl⟩, rfl, rfl⟩

/-- Witness of C8: user `"5"` has no vote on the sample post. -/
theorem new_vote_appended_witness :
    ((samplePost.Upvote "5").Votes = samplePost.Votes ++ [{ UserID := "5", Value := 1 }] ∧
      (samplePost.Upvote "5").Score = samplePost.Score + 1) ∧
    ((samplePost.Downvote "5").Votes = samplePost.Votes ++ [{ UserID := "5", Value := -1 }] ∧
      (samplePost.Downvote "5").Score = samplePost.Score + -1) :=
  new_vote_appended samplePost "5" (by decide)

/-- C9: `Unvote` of an existing vote. For every post in which the user has a
vote, with `v` the first one, `Unvote` removes exactly that vote: `Score`
decreases by `v.Value`, `Votes` gets shorter by one and keeps every other vote
(it is `pre` when `v` was last, and otherwise the last vote stands where `v`
stood), and `UpvotePercentage` is recomputed from the new `Score` and `Votes`.
When `v` was the only vote and `Score` equalled its value, the result has an
empty ledger, `Score` `0` and `UpvotePercentage` `0`. -/
theorem unvote_existing (p : Post) (u : String) (pre post : List Vote) (v : Vote)
    (hvotes : p.Votes = pre ++ v :: post) (hpre : ∀ w ∈ pre, w.UserID ≠ u)
    (hv : v.UserID = u) :
    (p.Unvote u).Score = p.Score - v.Value ∧
    (p.Unvote u).Votes.length + 1 = p.Votes.length ∧
    List.Perm (v :: (p.Unvote u).Votes) p.Votes ∧
    (post = [] → (p.Unvote u).Votes = pre) ∧
    (∀ body l, post = body ++ [l] → (p.Unvote u).Votes = pre ++ l :: body) ∧
    ((p.Unvote u).UpvotePercentage =
      if (p.Unvote u).Votes.length ≠ 0 then
        Int.tdiv (Int.tdiv ((p.Unvote u).Score + ((p.Unvote u).Votes.length : Int)) 2 * 100)
          ((p.Unvote u).Votes.length : Int)
      else 0) ∧
    (pre = [] → post = [] → p.Score = v.Value →
      (p.Unvote u).Votes = [] ∧ (p.Unvote u).Score = 0 ∧ (p.Unvote u).UpvotePercentage = 0) := by
  have hperm : List.Perm (v :: swapOut pre post) p.Votes := by
    rw [hvotes]
    exact swapOut_perm pre v post
  rw [Unvote_present p u pre post v hvotes hpre hv]
  refine ⟨rfl, ?_, hperm, ?_, ?_, rfl, ?_⟩
  · simpa using hperm.length_eq
  · intro hpost
    show swapOut pre post = pre
    simp [swapOut, hpost]
  · intro body l hpost
    show swapOut pre post = pre ++ l :: body
    simp [swapOut, hpost]
  · intro h1 h2 h3
    refine ⟨?_, ?_, ?_⟩
    · show swapOut pre post = []
      simp [swapOut, h1, h2]
    · show p.Score - v.Value = 0
      omega
    · show percentageOf (p.Score - v.Value) (swapOut pre post) = 0
      simp [swapOut, h1, h2, percentageOf]

/-- Witness of C9: user `"1"` holds the first vote of the sample post, and the
last vote, of user `"4"`, takes its place. -/
theorem unvote_existing_witness :
    (samplePost.Unvote "1").Score = 1 ∧
      (samplePost.Unvote "1").Votes = [⟨"4", -1⟩, ⟨"2", 1⟩, ⟨"3", 1⟩] :=
  ⟨(unvote_existing samplePost "1" [] [⟨"2", 1⟩, ⟨"3", 1⟩, ⟨"4", -1⟩] ⟨"1", 1⟩
      (by decide) (by decide) (by decide)).1,
   (unvote_existing samplePost "1" [] [⟨"2", 1⟩, ⟨"3", 1⟩, ⟨"4", -1⟩] ⟨"1", 1⟩
      (by decide) (by decide) (by decide)).2.2.2.2.1 [⟨"2", 1⟩, ⟨"3", 1⟩] ⟨"4", -1⟩ (by decide)⟩

/-- C10: unvote-then-unvote. For every post whose ledger has at most one vote
per user and every user id, the second of two consecutive `Unvote` calls for
that user is a no-op: the post, in particular `Votes`, `Score` and
`UpvotePercentage`, is the same as after the first call. In particular
`Unvote` for a user with no vote leaves the post unchanged. -/
theorem unvote_twice_noop :
    (∀ (p : Post) (u : String), (p.Votes.map Vote.UserID).Nodup →
      (p.Unvote u).Unvote u = p.Unvote u) ∧
    (∀ (p : Post) (u : String), (∀ w ∈ p.Votes, w.UserID ≠ u) → p.Unvote u = p) := by
  constructor
  · intro p u hnd
    rcases votes_cases p.Votes u with habs | ⟨pre, v, post, hvotes, hpre, hv⟩
    · rw [Unvote_absent p u habs]
      exact Unvote_absent p u habs
    · rw [Unvote_present p u pre post v hvotes hpre hv]
      apply Unvote_absent
      show ∀ w ∈ swapOut pre post, w.UserID ≠ u
      rw [hvotes] at hnd
      have hperm := (swapOut_perm pre v post).map Vote.UserID
      have hnd2 : (List.map Vote.UserID (v :: swapOut pre post)).Nodup :=
        hperm.nodup_iff.mpr hnd
      have hnot := (List.nodup_cons.mp hnd2).1
      intro w hw hwu
      apply hnot
      rw [hv, ← hwu]
      exact List.mem_map_of_mem _ hw
  · intro p u h
    exact Unvote_absent p u h

/-- Witness of C10 on the sample post: user `"2"` has one vote, user `"5"` none. -/
theorem unvote_twice_noop_witness :
    (samplePost.Votes.map Vote.UserID).Nodup ∧
      (samplePost.Unvote "2").Unvote "2" = samplePost.Unvote "2" ∧
      (∀ w ∈ samplePost.Votes, w.UserID ≠ "5") ∧
      samplePost.Unvote "5" = samplePost :=
  ⟨by decide, unvote_twice_noop.1 samplePost "2" (by decide), by decide,
    unvote_twice_noop.2 samplePost "5" (by decide)⟩

/-! ## Post initialisation -/

/-- C11: post initialisation. For every input post and every user, `InitPost`
yields a post whose `Author` is that user, whose `Votes` is exactly the single
vote of `user.ID` with `Value` `+1`, whose `Score` is `1`, whose
`UpvotePercentage` is `100` and whose `Comments` list is empty, whatever
values those fields had in the input. -/
theorem InitPost_fields (post : Post) (usr : User) :
    (InitPost post usr).Author = usr ∧
    (InitPost post usr).Votes = [{ UserID := usr.ID, Value := 1 }] ∧
    (InitPost post usr).Score = 1 ∧
    (InitPost post usr).UpvotePercentage = 100 ∧
    (InitPost post usr).Comments = [] := by
  have hp : percentageOf 1 [(⟨usr.ID, 1⟩ : Vote)] = 100 := by
    simp [percentageOf, Int.tdiv]
  unfold InitPost
  simp only [sync_eq]
  by_cases h : post.Type_ = TEXT
  · rw [if_pos h]
    refine ⟨?_, ?_, ?_, hp, ?_⟩ <;> trivial
  · rw [if_neg h]
    refine ⟨?_, ?_, ?_, hp, ?_⟩ <;> trivial

/-- C12: type-consistent field clearing. After `InitPost`, whose `Type` is the
one of the input, a post of `Type` `"text"` has an empty `URL` and its `Text`
unchanged, and a post of `Type` `"link"` has an empty `Text` and its `URL`
unchanged; so for every input at most one of `URL` and `Text` is non-empty
after `InitPost`. -/
theorem InitPost_clears_by_type (post : Post) (usr : User) :
    (InitPost post usr).Type_ = post.Type_ ∧
    (post.Type_ = "text" →
      (InitPost post usr).URL = "" ∧ (InitPost post usr).Text = post.Text) ∧
    (post.Type_ = "link" →
      (InitPost post usr).Text = "" ∧ (InitPost post usr).URL = post.URL) ∧
    ((InitPost post usr).URL = "" ∨ (InitPost post usr).Text = "") := by
  have hfields : (InitPost post usr).Type_ = post.Type_ ∧
      (InitPost post usr).URL = (if post.Type_ = TEXT then "" else post.URL) ∧
      (InitPost post usr).Text = (if post.Type_ = TEXT then post.Text else "") := by
    unfold InitPost
    simp only [sync_eq]
    by_cases h : post.Type_ = TEXT
    · rw [if_pos h, if_pos h, if_pos h]
      exact ⟨rfl, rfl, rfl⟩
    · rw [if_neg h, if_neg h, if_neg h]
      exact ⟨rfl, rfl, rfl⟩
  obtain ⟨hty, hurl, htext⟩ := hfields
  refine ⟨hty, ?_, ?_, ?_⟩
  · intro ht
    have h : post.Type_ = TEXT := ht
    rw [hurl, htext, if_pos h, if_pos h]
    exact ⟨rfl, rfl⟩
  · intro hl
    have h : ¬ post.Type_ = TEXT := by
      rw [hl]
      decide
    rw [hurl, htext, if_neg h, if_neg h]
    exact ⟨rfl, rfl⟩
  · by_cases h : post.Type_ = TEXT
    · left
      rw [hurl, if_pos h]
    · right
      rw [htext, if_neg h]

/-- Witness of C12: the sample post is of type `"text"`; with type `"link"`
and a URL it keeps the URL. -/
theorem InitPost_clears_by_type_witness :
    ((InitPost { samplePost with URL := "http://a", Text := "body" } sampleUser).URL = "" ∧
      (InitPost { samplePost with URL := "http://a", Text := "body" } sampleUser).Text = "body") ∧
    ((InitPost { samplePost with Type_ := "link", URL := "http://a", Text := "body" }
        sampleUser).Text = "" ∧
      (InitPost { samplePost with Type_ := "link", URL := "http://a", Text := "body" }
        sampleUser).URL = "http://a") :=
  ⟨(InitPost_clears_by_type { samplePost with URL := "http://a", Text := "body" }
      sampleUser).2.1 (by decide),
   (InitPost_clears_by_type { samplePost with Type_ := "link", URL := "http://a", Text := "body" }
      sampleUser).2.2.1 (by decide)⟩

/-! ## Go maps -/

theorem mapLookup_mapStore {β : Type} (key key2 : String) (value : β)
    (m : List (String × β)) :
    mapLookup key2 (mapStore key value m) =
      if key2 = key then some value else mapLookup key2 m := by
  induction m with
  | nil =>
    by_cases h : key2 = key
    · simp [mapStore, mapLookup, h]
    · have h2 : ¬ key = key2 := fun e => h e.symm
      simp [mapStore, mapLookup, h, h2]
  | cons e rest ih =>
    obtain ⟨k, b⟩ := e
    by_cases hk : k = key
    · by_cases h : key2 = key
      · simp [mapStore, mapLookup, hk, h]
      · have h2 : ¬ key = key2 := fun e => h e.symm
        simp [mapStore, mapLookup, hk, h, h2]
    · by_cases hk2 : k = key2
      · have h : ¬ key2 = key := fun e => hk (hk2.trans e)
        simp [mapStore, mapLookup, hk, hk2, h]
      · simp [mapStore, mapLookup, hk, hk2, ih]

theorem mapLookup_mapDelete {β : Type} (key key2 : String) (m : List (String × β)) :
    mapLookup key2 (mapDelete key m) = if key2 = key then none else mapLookup key2 m := by
  induction m with
  | nil => simp [mapDelete, mapLookup]
  | cons e rest ih =>
    obtain ⟨k, b⟩ := e
    have hstep : mapDelete key ((k, b) :: rest) =
        if k = key then mapDelete key rest else (k, b) :: mapDelete key rest := by
      unfold mapDelete
      by_cases hk : k = key
      · simp [hk]
      · simp [hk, List.filter_cons]
    rw [hstep]
    by_cases hk : k = key
    · rw [if_pos hk, ih]
      by_cases h : key2 = key
      · rw [if_pos h, if_pos h]
      · have h2 : ¬ k = key2 := fun e => h (e.symm.trans hk)
        rw [if_neg h, if_neg h]
        simp [mapLookup, h2]
    · rw [if_neg hk]
      by_cases hk2 : k = key2
      · have h : ¬ key2 = key := fun e => hk (hk2.trans e)
        simp [mapLookup, hk2, h]
      · simp [mapLookup, hk2, ih]

theorem mapStore_keys {β : Type} (key : String) (value old : β) (m : List (String × β))
    (h : mapLookup key m = some old) :
    (mapStore key value m).map Prod.fst = m.map Prod.fst := by
  induction m with
  | nil => simp [mapLookup] at h
  | cons e rest ih =>
    obtain ⟨k, b⟩ := e
    by_cases hk : k = key
    · simp [mapStore, hk]
    · simp only [mapLookup, hk, if_false] at h
      simp [mapStore, hk, ih h]

/-! ## Removal by moving the last element -/

theorem set_length_append_of {α : Type} (pre : List α) (v x : α) (rest : List α) :
    (pre ++ v :: rest).set pre.length x = pre ++ x :: rest := by
  induction pre with
  | nil => simp
  | cons a as ih => simp [ih]

theorem swapRemove_append {α : Type} (pre : List α) (v d : α) (rest : List α) :
    (((pre ++ v :: rest).set pre.length
        ((pre ++ v :: rest).getD ((pre ++ v :: rest).length - 1) d)).take
      ((pre ++ v :: rest).length - 1)) = swapOutOf pre rest := by
  rw [set_length_append_of]
  rcases List.eq_nil_or_concat rest with rfl | ⟨body, l, rfl⟩
  · simp [swapOutOf]
  · rw [List.concat_eq_append]
    have hlen : (pre ++ v :: (body ++ [l])).length - 1 = (pre ++ v :: body).length := by
      simp
    have hget : (pre ++ v :: (body ++ [l])).getD ((pre ++ v :: (body ++ [l])).length - 1) d = l := by
      rw [hlen]
      have : pre ++ v :: (body ++ [l]) = (pre ++ v :: body) ++ [l] := by simp
      rw [this, List.getD_eq_getElem?_getD, List.getElem?_append_right (le_refl _)]
      simp
    rw [hget, hlen]
    have : pre ++ l :: (body ++ [l]) = (pre ++ l :: body) ++ [l] := by simp
    rw [this]
    have hl2 : (pre ++ v :: body).length = (pre ++ l :: body).length := by simp
    rw [hl2, List.take_left]
    simp [swapOutOf]

theorem swapOutOf_perm {α : Type} (pre : List α) (v : α) (rest : List α) :
    List.Perm (v :: swapOutOf pre rest) (pre ++ v :: rest) := by
  rcases List.eq_nil_or_concat rest with rfl | ⟨body, l, rfl⟩
  · simp only [swapOutOf, List.getLast?_nil]
    exact (List.perm_append_singleton v pre).symm
  · rw [List.concat_eq_append]
    have h1 : swapOutOf pre (body ++ [l]) = pre ++ l :: body := by simp [swapOutOf]
    rw [h1]
    have h2 : List.Perm (body ++ [l]) (l :: body) := List.perm_append_singleton l body
    have h3 : List.Perm (pre ++ v :: (body ++ [l])) (pre ++ v :: l :: body) :=
      (h2.cons v).append_left pre
    have h4 : List.Perm (pre ++ v :: l :: body) (v :: (pre ++ l :: body)) := List.perm_middle
    exact (h3.trans h4).symm

theorem getD_length_append {α : Type} (pre : List α) (v d : α) (rest : List α) :
    (pre ++ v :: rest).getD pre.length d = v := by
  rw [List.getD_eq_getElem?_getD, List.getElem?_append_right (le_refl _)]
  simp

/-! ## The loop of `DeleteComment` -/

theorem findCommentIdx_eq_none {commentID : String} {comments : List Comment} :
    findCommentIdx commentID comments = none ↔ ∀ c ∈ comments, c.ID ≠ commentID := by
  induction comments with
  | nil => simp [findCommentIdx]
  | cons c cs ih =>
    by_cases h : c.ID = commentID
    · simp [findCommentIdx, h]
    · simp [findCommentIdx, h, ih]

theorem findCommentIdx_append {commentID : String} {pre : List Comment} {c : Comment}
    (rest : List Comment) (hpre : ∀ x ∈ pre, x.ID ≠ commentID) (hc : c.ID = commentID) :
    findCommentIdx commentID (pre ++ c :: rest) = some pre.length := by
  induction pre with
  | nil => simp [findCommentIdx, hc]
  | cons a as ih =>
    have ha : a.ID ≠ commentID := hpre a (List.mem_cons_self _ _)
    have has : ∀ x ∈ as, x.ID ≠ commentID := fun x hx => hpre x (List.mem_cons_of_mem _ hx)
    simp [findCommentIdx, ha, ih has]

/-! ## The in-memory repository -/

theorem DeleteComment_absent (repo : PostMemoryRepository) (postID commentID userID : String)
    (h : mapLookup postID repo.id2Post = none) :
    repo.DeleteComment postID commentID userID = ⟨Post.zero, some ErrNoPost, repo⟩ := by
  simp only [PostMemoryRepository.DeleteComment, h]

theorem DeleteComment_no_comment (repo : PostMemoryRepository)
    (postID commentID userID : String) (post : Post)
    (hpost : mapLookup postID repo.id2Post = some post)
    (hnone : ∀ x ∈ post.Comments, x.ID ≠ commentID) :
    repo.DeleteComment postID commentID userID = ⟨Post.zero, some ErrNoComment, repo⟩ := by
  have hidx : findCommentIdx commentID post.Comments = none :=
    findCommentIdx_eq_none.mpr hnone
  simp only [PostMemoryRepository.DeleteComment, hpost, hidx]

theorem Delete_absent (repo : PostMemoryRepository) (postID userID : String)
    (h : mapLookup postID repo.id2Post = none) :
    repo.Delete postID userID = ⟨(), some ErrNoPost, repo⟩ := by
  simp only [PostMemoryRepository.Delete, h]

theorem Delete_found (repo : PostMemoryRepository) (postID userID : String) (post : Post)
    (hpost : mapLookup postID repo.id2Post = some post) :
    repo.Delete postID userID =
      if post.Author.ID ≠ userID then ⟨(), some ErrNoAccess, repo⟩
      else ⟨(), none, { repo with id2Post := mapDelete postID repo.id2Post }⟩ := by
  simp only [PostMemoryRepository.Delete, hpost]

theorem DeleteComment_found (repo : PostMemoryRepository) (postID commentID userID : String)
    (post : Post) (pre rest : List Comment) (c : Comment)
    (hpost : mapLookup postID repo.id2Post = some post)
    (hcomments : post.Comments = pre ++ c :: rest)
    (hpre : ∀ x ∈ pre, x.ID ≠ commentID) (hc : c.ID = commentID) :
    repo.DeleteComment postID commentID userID =
      if c.Author.ID ≠ userID then ⟨Post.zero, some ErrNoAccess, repo⟩
      else ⟨{ post with Comments := swapOutOf pre rest }, none,
        { repo with id2Post :=
            mapStore postID { post with Comments := swapOutOf pre rest } repo.id2Post }⟩ := by
  have hidx : findCommentIdx commentID post.Comments = some pre.length := by
    rw [hcomments]
    exact findCommentIdx_append rest hpre hc
  have hget : post.Comments.getD pre.length Comment.zero = c := by
    rw [hcomments]
    exact getD_length_append pre c Comment.zero rest
  have hswap : ((post.Comments.set pre.length
      (post.Comments.getD (post.Comments.length - 1) Comment.zero)).take
        (post.Comments.length - 1)) = swapOutOf pre rest := by
    rw [hcomments]
    exact swapRemove_append pre c Comment.zero rest
  simp only [PostMemoryRepository.DeleteComment, hpost, hidx, hget, List.length_set, hswap]

/-- C13: in-memory comment deletion. `PostMemoryRepository.DeleteComment`
returns `ErrNoPost` if the post is absent, otherwise `comment.ErrNoComment` if
the post has no comment with that id, otherwise `ErrNoAccess` if the author id
of the comment, the first one with that id, differs from the requester id,
whoever the requester is and so even when it is the post's author; in every
error case the repository is unchanged. On success the stored and returned
post is the old one without exactly that comment: the last comment stands in
its place and all other comments remain; other posts are unchanged. -/
theorem memory_DeleteComment (repo : PostMemoryRepository)
    (postID commentID userID : String) :
    (mapLookup postID repo.id2Post = none →
      (repo.DeleteComment postID commentID userID).err = some ErrNoPost ∧
      (repo.DeleteComment postID commentID userID).state = repo) ∧
    (∀ post, mapLookup postID repo.id2Post = some post →
      ((∀ x ∈ post.Comments, x.ID ≠ commentID) →
        (repo.DeleteComment postID commentID userID).err = some ErrNoComment ∧
        (repo.DeleteComment postID commentID userID).state = repo) ∧
      (∀ pre c rest, post.Comments = pre ++ c :: rest →
        (∀ x ∈ pre, x.ID ≠ commentID) → c.ID = commentID →
        (c.Author.ID ≠ userID →
          (repo.DeleteComment postID commentID userID).err = some ErrNoAccess ∧
          (repo.DeleteComment postID commentID userID).state = repo) ∧
        (c.Author.ID = userID →
          (repo.DeleteComment postID commentID userID).err = none ∧
          (repo.DeleteComment postID commentID userID).val =
            { post with Comments := swapOutOf pre rest } ∧
          List.Perm (c :: (repo.DeleteComment postID commentID userID).val.Comments)
            post.Comments ∧
          mapLookup postID (repo.DeleteComment postID commentID userID).state.id2Post =
            some (repo.DeleteComment postID commentID userID).val ∧
          (∀ id, id ≠ postID →
            mapLookup id (repo.DeleteComment postID commentID userID).state.id2Post =
              mapLookup id repo.id2Post)))) := by
  constructor
  · intro h
    rw [DeleteComment_absent repo postID commentID userID h]
    exact ⟨rfl, rfl⟩
  · intro post hpost
    constructor
    · intro hnone
      rw [DeleteComment_no_comment repo postID commentID userID post hpost hnone]
      exact ⟨rfl, rfl⟩
    · intro pre c rest hcomments hpre hc
      rw [DeleteComment_found repo postID commentID userID post pre rest c hpost hcomments hpre hc]
      constructor
      · intro hne
        rw [if_pos hne]
        exact ⟨rfl, rfl⟩
      · intro heq
        rw [if_neg (not_not.mpr heq)]
        refine ⟨rfl, rfl, ?_, ?_, ?_⟩
        · show List.Perm (c :: swapOutOf pre rest) post.Comments
          rw [hcomments]
          exact swapOutOf_perm pre c rest
        · show mapLookup postID (mapStore postID _ repo.id2Post) = _
          rw [mapLookup_mapStore, if_pos rfl]
        · intro id hid
          show mapLookup id (mapStore postID _ repo.id2Post) = _
          rw [mapLookup_mapStore, if_neg hid]

/-- Witness of C13 on the sample repository: post `"3"` is absent; post `"1"`,
written by user `"1"`, has no comment `"c9"`; its comment `"c1"` was written
by user `"7"`, so the post's author `"1"` may not delete it and `"7"` may. -/
theorem memory_DeleteComment_witness :
    (sampleRepo.DeleteComment "3" "c1" "7").err = some ErrNoPost ∧
    (sampleRepo.DeleteComment "1" "c9" "7").err = some ErrNoComment ∧
    ((sampleRepo.DeleteComment "1" "c1" "1").err = some ErrNoAccess ∧
      (sampleRepo.DeleteComment "1" "c1" "1").state = sampleRepo) ∧
    (sampleRepo.DeleteComment "1" "c1" "7").val.Comments = [sampleComment2] :=
  ⟨((memory_DeleteComment sampleRepo "3" "c1" "7").1 (by decide)).1,
   (((memory_DeleteComment sampleRepo "1" "c9" "7").2 _ rfl).1 (by decide)).1,
   (((memory_DeleteComment sampleRepo "1" "c1" "1").2 _ rfl).2
      [] sampleComment [sampleComment2] rfl (by decide) (by decide)).1 (by decide),
   congrArg Post.Comments
     ((((memory_DeleteComment sampleRepo "1" "c1" "7").2 _ rfl).2
        [] sampleComment [sampleComment2] rfl (by decide) (by decide)).2 (by decide)).2.1⟩

/-- C15: in-memory post deletion. `PostMemoryRepository.Delete` returns
`ErrNoPost` if the post is absent and `ErrNoAccess` if the post's author id
differs from the requester id, leaving the repository unchanged in both
cases; otherwise it returns no error and removes exactly that post: a later
`GetByID` for its id returns `ErrNoPost`, and every other post is unchanged. -/
theorem memory_Delete (repo : PostMemoryRepository) (postID userID : String) :
    (mapLookup postID repo.id2Post = none →
      (repo.Delete postID userID).err = some ErrNoPost ∧
      (repo.Delete postID userID).state = repo) ∧
    (∀ post, mapLookup postID repo.id2Post = some post →
      (post.Author.ID ≠ userID →
        (repo.Delete postID userID).err = some ErrNoAccess ∧
        (repo.Delete postID userID).state = repo) ∧
      (post.Author.ID = userID →
        (repo.Delete postID userID).err = none ∧
        mapLookup postID (repo.Delete postID userID).state.id2Post = none ∧
        ((repo.Delete postID userID).state.GetByID postID).err = some ErrNoPost ∧
        (∀ id, id ≠ postID →
          mapLookup id (repo.Delete postID userID).state.id2Post =
            mapLookup id repo.id2Post))) := by
  constructor
  · intro h
    rw [Delete_absent repo postID userID h]
    exact ⟨rfl, rfl⟩
  · intro post hpost
    rw [Delete_found repo postID userID post hpost]
    constructor
    · intro hne
      rw [if_pos hne]
      exact ⟨rfl, rfl⟩
    · intro heq
      rw [if_neg (not_not.mpr heq)]
      have hgone : mapLookup postID (mapDelete postID repo.id2Post) = none := by
        rw [mapLookup_mapDelete, if_pos rfl]
      refine ⟨rfl, hgone, ?_, ?_⟩
      · simp only [PostMemoryRepository.GetByID, hgone]
      · intro id hid
        show mapLookup id (mapDelete postID repo.id2Post) = _
        rw [mapLookup_mapDelete, if_neg hid]

/-- Witness of C15 on the sample repository: post `"3"` is absent, post `"1"`
was written by user `"1"`. -/
theorem memory_Delete_witness :
    (sampleRepo.Delete "3" "1").err = some ErrNoPost ∧
    (sampleRepo.Delete "1" "2").err = some ErrNoAccess ∧
    ((sampleRepo.Delete "1" "1").err = none ∧
      ((sampleRepo.Delete "1" "1").state.GetByID "1").err = some ErrNoPost) :=
  ⟨((memory_Delete sampleRepo "3" "1").1 (by decide)).1,
   (((memory_Delete sampleRepo "1" "2").2 _ rfl).1 (by decide)).1,
   (((memory_Delete sampleRepo "1" "1").2 _ rfl).2 (by decide)).1,
   (((memory_Delete sampleRepo "1" "1").2 _ rfl).2 (by decide)).2.2.1⟩

theorem GetByID_absent (repo : PostMemoryRepository) (id : String)
    (h : mapLookup id repo.id2Post = none) :
    repo.GetByID id = ⟨Post.zero, some ErrNoPost, repo⟩ := by
  simp only [PostMemoryRepository.GetByID, h]

theorem GetByID_found (repo : PostMemoryRepository) (id : String) (post : Post)
    (h : mapLookup id repo.id2Post = some post) :
    repo.GetByID id =
      ⟨{ post with Views := post.Views + 1 }, none,
        { repo with id2Post := mapStore id { post with Views := post.Views + 1 } repo.id2Post }⟩ := by
  simp only [PostMemoryRepository.GetByID, h]

theorem AddComment_absent (repo : PostMemoryRepository) (postID : String) (comm : Comment)
    (uuid : Except Error String) (now : String) (h : mapLookup postID repo.id2Post = none) :
    repo.AddComment postID comm uuid now = ⟨Post.zero, some ErrNoPost, repo⟩ := by
  simp only [PostMemoryRepository.AddComment, h]

theorem Upvote_absent (repo : PostMemoryRepository) (postID userID : String)
    (h : mapLookup postID repo.id2Post = none) :
    repo.Upvote postID userID = ⟨Post.zero, some ErrNoPost, repo⟩ := by
  simp only [PostMemoryRepository.Upvote, h]

theorem Downvote_absent (repo : PostMemoryRepository) (postID userID : String)
    (h : mapLookup postID repo.id2Post = none) :
    repo.Downvote postID userID = ⟨Post.zero, some ErrNoPost, repo⟩ := by
  simp only [PostMemoryRepository.Downvote, h]

theorem Unvote_absent_post (repo : PostMemoryRepository) (postID userID : String)
    (h : mapLookup postID repo.id2Post = none) :
    repo.Unvote postID userID = ⟨Post.zero, some ErrNoPost, repo⟩ := by
  simp only [PostMemoryRepository.Unvote, h]

theorem Upvote_found (repo : PostMemoryRepository) (postID userID : String) (post : Post)
    (h : mapLookup postID repo.id2Post = some post) :
    repo.Upvote postID userID =
      ⟨post.Upvote userID, none,
        { repo with id2Post := mapStore postID (post.Upvote userID) repo.id2Post }⟩ := by
  simp only [PostMemoryRepository.Upvote, h]

theorem Downvote_found (repo : PostMemoryRepository) (postID userID : String) (post : Post)
    (h : mapLookup postID repo.id2Post = some post) :
    repo.Downvote postID userID =
      ⟨post.Downvote userID, none,
        { repo with id2Post := mapStore postID (post.Downvote userID) repo.id2Post }⟩ := by
  simp only [PostMemoryRepository.Downvote, h]

theorem Unvote_found (repo : PostMemoryRepository) (postID userID : String) (post : Post)
    (h : mapLookup postID repo.id2Post = some post) :
    repo.Unvote postID userID =
      ⟨post.Unvote userID, none,
        { repo with id2Post := mapStore postID (post.Unvote userID) repo.id2Post }⟩ := by
  simp only [PostMemoryRepository.Unvote, h]

theorem readTimes_lookup (id : String) (n : Nat) :
    ∀ (repo : PostMemoryRepository) (post : Post), mapLookup id repo.id2Post = some post →
      mapLookup id (readTimes id n repo).id2Post =
        some { post with Views := post.Views + (n : Int) } := by
  induction n with
  | zero =>
    intro repo post h
    simp only [readTimes, h, Nat.cast_zero, add_zero]
  | succ k ih =>
    intro repo post h
    have hnext : mapLookup id (repo.GetByID id).state.id2Post =
        some { post with Views := post.Views + 1 } := by
      rw [GetByID_found repo id post h]
      show mapLookup id (mapStore id _ repo.id2Post) = _
      rw [mapLookup_mapStore, if_pos rfl]
    have h2 := ih (repo.GetByID id).state _ hnext
    simp only [readTimes]
    rw [h2]
    have harith : post.Views + 1 + (k : Int) = post.Views + ((k + 1 : Nat) : Int) := by
      push_cast
      omega
    simp only [harith]

theorem mongo_GetByID_found {σ : Type} (posts : CollectionHelper σ) (s : σ) (id : String)
    (post : Post) (h : posts.FindOne s (.byID id) = .ok post) :
    PostMongoDBRepository.GetByID posts s id =
      ⟨{ post with Views := post.Views + 1 },
        (posts.UpdateOne s (.byID id) (.setViews (post.Views + 1))).err,
        (posts.UpdateOne s (.byID id) (.setViews (post.Views + 1))).state⟩ := by
  simp only [PostMongoDBRepository.GetByID, PostMongoDBRepository.getPost, h]

/-- C17: absent post. For every repository state and every post id not stored
in it, the in-memory operations `GetByID`, `AddComment`, `DeleteComment`,
`Upvote`, `Downvote`, `Unvote` and `Delete` all return `ErrNoPost` and leave
the repository state unchanged, whatever their other arguments are. -/
theorem memory_absent_post (repo : PostMemoryRepository) (id : String)
    (h : mapLookup id repo.id2Post = none) (comm : Comment) (uuid : Except Error String)
    (now commentID userID : String) :
    ((repo.GetByID id).err = some ErrNoPost ∧ (repo.GetByID id).state = repo) ∧
    ((repo.AddComment id comm uuid now).err = some ErrNoPost ∧
      (repo.AddComment id comm uuid now).state = repo) ∧
    ((repo.DeleteComment id commentID userID).err = some ErrNoPost ∧
      (repo.DeleteComment id commentID userID).state = repo) ∧
    ((repo.Upvote id userID).err = some ErrNoPost ∧ (repo.Upvote id userID).state = repo) ∧
    ((repo.Downvote id userID).err = some ErrNoPost ∧
      (repo.Downvote id userID).state = repo) ∧
    ((repo.Unvote id userID).err = some ErrNoPost ∧ (repo.Unvote id userID).state = repo) ∧
    ((repo.Delete id userID).err = some ErrNoPost ∧ (repo.Delete id userID).state = repo) := by
  rw [GetByID_absent repo id h, AddComment_absent repo id comm uuid now h,
    DeleteComment_absent repo id commentID userID h, Upvote_absent repo id userID h,
    Downvote_absent repo id userID h, Unvote_absent_post repo id userID h,
    Delete_absent repo id userID h]
  exact ⟨⟨rfl, rfl⟩, ⟨rfl, rfl⟩, ⟨rfl, rfl⟩, ⟨rfl, rfl⟩, ⟨rfl, rfl⟩, ⟨rfl, rfl⟩, ⟨rfl, rfl⟩⟩

/-- Witness of C17: the sample repository stores no post under id `"3"`. -/
theorem memory_absent_post_witness :
    ((sampleRepo.GetByID "3").err = some ErrNoPost ∧ (sampleRepo.GetByID "3").state = sampleRepo) ∧
    ((sampleRepo.AddComment "3" sampleComment (.ok "u") "t").err = some ErrNoPost ∧
      (sampleRepo.AddComment "3" sampleComment (.ok "u") "t").state = sampleRepo) ∧
    ((sampleRepo.DeleteComment "3" "c1" "7").err = some ErrNoPost ∧
      (sampleRepo.DeleteComment "3" "c1" "7").state = sampleRepo) ∧
    ((sampleRepo.Upvote "3" "7").err = some ErrNoPost ∧
      (sampleRepo.Upvote "3" "7").state = sampleRepo) ∧
    ((sampleRepo.Downvote "3" "7").err = some ErrNoPost ∧
      (sampleRepo.Downvote "3" "7").state = sampleRepo) ∧
    ((sampleRepo.Unvote "3" "7").err = some ErrNoPost ∧
      (sampleRepo.Unvote "3" "7").state = sampleRepo) ∧
    ((sampleRepo.Delete "3" "7").err = some ErrNoPost ∧
      (sampleRepo.Delete "3" "7").state = sampleRepo) :=
  memory_absent_post sampleRepo "3" (by decide) sampleComment (.ok "u") "t" "c1" "7"

/-- C18: view counter. For every stored post, a successful
`PostMemoryRepository.GetByID` returns the post with `Views` raised by one and
nothing else changed, stores that post under the id, and changes neither the
other posts nor the set of ids; after `n` successive reads the stored post is
the old one with `Views` raised by exactly `n`. `PostMongoDBRepository.GetByID`,
when `FindOne` decodes a post, returns that post with `Views` raised by one,
and its error and resulting store are those of the call
`UpdateOne` with the filter on the id and the update setting `views` to that
value. -/
theorem view_counter :
    (∀ (repo : PostMemoryRepository) (id : String) (post : Post),
      mapLookup id repo.id2Post = some post →
        (repo.GetByID id).err = none ∧
        (repo.GetByID id).val = { post with Views := post.Views + 1 } ∧
        mapLookup id (repo.GetByID id).state.id2Post =
          some { post with Views := post.Views + 1 } ∧
        (∀ id2, id2 ≠ id →
          mapLookup id2 (repo.GetByID id).state.id2Post = mapLookup id2 repo.id2Post) ∧
        (repo.GetByID id).state.id2Post.map Prod.fst = repo.id2Post.map Prod.fst ∧
        (∀ n : Nat, mapLookup id (readTimes id n repo).id2Post =
          some { post with Views := post.Views + (n : Int) })) ∧
    (∀ (σ : Type) (posts : CollectionHelper σ) (s : σ) (id : String) (post : Post),
      posts.FindOne s (.byID id) = .ok post →
        (PostMongoDBRepository.GetByID posts s id).val = { post with Views := post.Views + 1 } ∧
        (PostMongoDBRepository.GetByID posts s id).err =
          (posts.UpdateOne s (.byID id) (.setViews (post.Views + 1))).err ∧
        (PostMongoDBRepository.GetByID posts s id).state =
          (posts.UpdateOne s (.byID id) (.setViews (post.Views + 1))).state) := by
  constructor
  · intro repo id post h
    rw [GetByID_found repo id post h]
    refine ⟨rfl, rfl, ?_, ?_, ?_, ?_⟩
    · show mapLookup id (mapStore id _ repo.id2Post) = _
      rw [mapLookup_mapStore, if_pos rfl]
    · intro id2 hid
      show mapLookup id2 (mapStore id _ repo.id2Post) = _
      rw [mapLookup_mapStore, if_neg hid]
    · exact mapStore_keys id _ post repo.id2Post h
    · intro n
      exact readTimes_lookup id n repo post h
  · intro σ posts s id post h
    rw [mongo_GetByID_found posts s id post h]
    exact ⟨rfl, rfl, rfl⟩

/-- Witness of C18: the sample repository stores a post with `Views` `5`
under id `"2"`, and the model collection finds it as well. -/
theorem view_counter_witness :
    (sampleRepo.GetByID "2").val.Views = 6 ∧
    (mapLookup "2" (readTimes "2" 3 sampleRepo).id2Post).map Post.Views = some 8 ∧
    (PostMongoDBRepository.GetByID mongoCollection sampleDocs "2").val.Views = 6 :=
  ⟨congrArg Post.Views ((view_counter.1 sampleRepo "2" _ rfl).2.1),
   congrArg (Option.map Post.Views) ((view_counter.1 sampleRepo "2" _ rfl).2.2.2.2.2 3),
   congrArg Post.Views ((view_counter.2 _ mongoCollection sampleDocs "2" _ rfl).1)⟩

/-- C19: vote delegation. For every repository state containing the post id,
`PostMemoryRepository.Upvote`, `Downvote` and `Unvote` return without error,
and store under that id, exactly the post obtained by applying `Post.Upvote`,
`Post.Downvote` or `Post.Unvote` to the previously stored post, and leave
every other stored post unchanged. -/
theorem vote_delegation (repo : PostMemoryRepository) (postID userID : String) (post : Post)
    (h : mapLookup postID repo.id2Post = some post) :
    ((repo.Upvote postID userID).err = none ∧
      (repo.Upvote postID userID).val = post.Upvote userID ∧
      mapLookup postID (repo.Upvote postID userID).state.id2Post = some (post.Upvote userID) ∧
      (∀ id, id ≠ postID →
        mapLookup id (repo.Upvote postID userID).state.id2Post = mapLookup id repo.id2Post)) ∧
    ((repo.Downvote postID userID).err = none ∧
      (repo.Downvote postID userID).val = post.Downvote userID ∧
      mapLookup postID (repo.Downvote postID userID).state.id2Post =
        some (post.Downvote userID) ∧
      (∀ id, id ≠ postID →
        mapLookup id (repo.Downvote postID userID).state.id2Post = mapLookup id repo.id2Post)) ∧
    ((repo.Unvote postID userID).err = none ∧
      (repo.Unvote postID userID).val = post.Unvote userID ∧
      mapLookup postID (repo.Unvote postID userID).state.id2Post = some (post.Unvote userID) ∧
      (∀ id, id ≠ postID →
        mapLookup id (repo.Unvote postID userID).state.id2Post = mapLookup id repo.id2Post)) := by
  rw [Upvote_found repo postID userID post h, Downvote_found repo postID userID post h,
    Unvote_found repo postID userID post h]
  refine ⟨⟨rfl, rfl, ?_, ?_⟩, ⟨rfl, rfl, ?_, ?_⟩, ⟨rfl, rfl, ?_, ?_⟩⟩
  · show mapLookup postID (mapStore postID _ repo.id2Post) = _
    rw [mapLookup_mapStore, if_pos rfl]
  · intro id hid
    show mapLookup id (mapStore postID _ repo.id2Post) = _
    rw [mapLookup_mapStore, if_neg hid]
  · show mapLookup postID (mapStore postID _ repo.id2Post) = _
    rw [mapLookup_mapStore, if_pos rfl]
  · intro id hid
    show mapLookup id (mapStore postID _ repo.id2Post) = _
    rw [mapLookup_mapStore, if_neg hid]
  · show mapLookup postID (mapStore postID _ repo.id2Post) = _
    rw [mapLookup_mapStore, if_pos rfl]
  · intro id hid
    show mapLookup id (mapStore postID _ repo.id2Post) = _
    rw [mapLookup_mapStore, if_neg hid]

/-- Witness of C19: the sample repository stores a post under id `"2"`, on
which user `"4"` holds a `-1` vote. -/
theorem vote_delegation_witness :
    (sampleRepo.Upvote "2" "4").val.Score = 4 ∧
    (sampleRepo.Downvote "2" "9").val.Score = 1 ∧
    (sampleRepo.Unvote "2" "4").val.Score = 3 :=
  ⟨congrArg Post.Score (vote_delegation sampleRepo "2" "4" _ rfl).1.2.1,
   congrArg Post.Score (vote_delegation sampleRepo "2" "9" _ rfl).2.1.2.1,
   congrArg Post.Score (vote_delegation sampleRepo "2" "4" _ rfl).2.2.2.1⟩

/-! ## The MongoDB repository -/

/-- C14: MongoDB comment deletion, evaluated where the claim fails. In the
sample documents post `"1"` exists and its comment `"c1"` was written by user
`"7"`. Asked by user `"1"` to delete it, `PostMongoDBRepository.DeleteComment`
returns `comment.ErrNoComment` and not `ErrNoAccess`, although the post has a
comment with that id, and leaves the documents unchanged; the in-memory
repository returns `ErrNoAccess` on the same data. -/
theorem mongo_DeleteComment_other_author :
    (∃ post ∈ sampleDocs, post.ID = "1" ∧
      ∃ c ∈ post.Comments, c.ID = "c1" ∧ c.Author.ID ≠ "1") ∧
    (PostMongoDBRepository.DeleteComment mongoCollection sampleDocs "1" "c1" "1").err =
      some ErrNoComment ∧
    (PostMongoDBRepository.DeleteComment mongoCollection sampleDocs "1" "c1" "1").state =
      sampleDocs ∧
    (sampleRepo.DeleteComment "1" "c1" "1").err = some ErrNoAccess := by
  refine ⟨?_, by decide, by decide, by decide⟩
  exact ⟨_, List.mem_cons_self _ _, by decide, sampleComment, List.mem_cons_self _ _,
    by decide, by decide⟩

/-- C16: MongoDB post deletion, evaluated where the claim fails. On the sample
documents `PostMongoDBRepository.Delete` returns no error for the id `"9"`,
which no post has, and for post `"1"` asked by user `"2"`, who is not its
author; in both cases no post is deleted. The in-memory repository returns
`ErrNoPost` and `ErrNoAccess` on the same data. Whatever the collection,
`Delete` returns the error of `DeleteOne` and nothing else. -/
theorem mongo_Delete_reports_no_error :
    ((∀ post ∈ sampleDocs, post.ID ≠ "9") ∧
      (PostMongoDBRepository.Delete mongoCollection sampleDocs "9" "1").err = none ∧
      (PostMongoDBRepository.Delete mongoCollection sampleDocs "9" "1").state = sampleDocs ∧
      (sampleRepo.Delete "9" "1").err = some ErrNoPost) ∧
    ((∃ post ∈ sampleDocs, post.ID = "1" ∧ post.Author.ID ≠ "2") ∧
      (PostMongoDBRepository.Delete mongoCollection sampleDocs "1" "2").err = none ∧
      (PostMongoDBRepository.Delete mongoCollection sampleDocs "1" "2").state = sampleDocs ∧
      (sampleRepo.Delete "1" "2").err = some ErrNoAccess) ∧
    (∀ (σ : Type) (posts : CollectionHelper σ) (s : σ) (postID userID : String),
      (PostMongoDBRepository.Delete posts s postID userID).err =
        (posts.DeleteOne s (.byIDAndAuthor postID userID)).err) := by
  refine ⟨⟨by decide, by decide, by decide, by decide⟩,
    ⟨?_, by decide, by decide, by decide⟩, ?_⟩
  · exact ⟨_, List.mem_cons_self _ _, by decide, by decide⟩
  · intro σ posts s postID userID
    unfold PostMongoDBRepository.Delete
    cases h : (posts.DeleteOne s (.byIDAndAuthor postID userID)).err with
    | none => simp only [h]
    | some err => simp only [h]

/-! ## Sessions -/

theorem cutChars_append (pre rest : List Char) : cutChars pre (pre ++ rest) = some rest := by
  induction pre with
  | nil => cases rest <;> rfl
  | cons p ps ih => simp [cutChars, ih]

theorem CutPrefix_append (pre token : String) : CutPrefix (pre ++ token) pre = (token, true) := by
  unfold CutPrefix
  rw [String.data_append, cutChars_append]

theorem floor_seconds_le (a b : Int) (h : a ≤ b) : a / 1000000000 ≤ b / 1000000000 := by
  omega

theorem before_expiry (get exp : Int) (h : get ≤ exp + 604800000000000 - 1000000000) :
    get < (exp + 604800000000000) / 1000000000 * 1000000000 := by
  omega

theorem TokenExpirationTime_eq : TokenExpirationTime = 604800000000000 := by
  decide

/-- C20: session round-trip. For every user, whatever the password, and
every in-memory session manager state: when the JWT library signs the claims
into a non-empty token string that it verifies again and reads back with the
`exp` and `iat` numbers that were signed and no `nbf` entry, the `user` entry
coming back in any form (JSON drops the unexported password), the token
returned by `Create`, presented to `Check` as `"Bearer "` followed by the
token while the clock has not run backwards and at most `TokenExpirationTime`
less one second has passed, is accepted and resolves to a session whose user
is that user, so whose user id equals `user.ID`. -/
theorem session_round_trip (lib : JWTCodec) (sm : SessionsManagerMemory) (user : User)
    (nowIat nowExp nowParse nowGet : Time) (tok : String) (decoded : MapClaims)
    (hsign : lib.sign SigningMethodHS256
      [("user", .user user), ("iat", .num nowIat.Unix),
       ("exp", .num (Time.Unix (nowExp + TokenExpirationTime)))] sm.secret = .ok tok)
    (hdecode : lib.decode tok = some (SigningMethodHS256, decoded))
    (hdecodedExp : mapLookup "exp" decoded =
      some (.num (Time.Unix (nowExp + TokenExpirationTime))))
    (hdecodedIat : mapLookup "iat" decoded = some (.num nowIat.Unix))
    (hdecodedNbf : mapLookup "nbf" decoded = none)
    (hverify : lib.verify SigningMethodHS256 tok sm.secret = true)
    (hne : tok ≠ "")
    (hclock1 : nowIat ≤ nowParse) (hclock2 : nowParse ≤ nowGet)
    (hsoon : nowGet ≤ nowExp + TokenExpirationTime - 1000000000) :
    (sm.Create lib user nowIat nowExp).val = tok ∧
    (sm.Create lib user nowIat nowExp).err = none ∧
    ∃ session,
      (sm.Create lib user nowIat nowExp).state.Check lib ("Bearer " ++ tok) nowParse nowGet =
        .ok session ∧
      session.User = user ∧ session.User.ID = user.ID := by
  have hcreate : sm.Create lib user nowIat nowExp =
      ⟨tok, none,
        ⟨mapStore tok (NewSession (toString (sm.lastID + 1)) user) sm.token2Session,
          sm.secret, sm.lastID + 1⟩⟩ := by
    simp only [SessionsManagerMemory.Create, hsign]
  rw [hcreate]
  refine ⟨rfl, rfl, NewSession (toString (sm.lastID + 1)) user, ?_, rfl, rfl⟩
  have hexp : nowGet < (nowExp + TokenExpirationTime) / 1000000000 * 1000000000 := by
    rw [TokenExpirationTime_eq] at hsoon ⊢
    exact before_expiry nowGet nowExp hsoon
  have hparseExp : nowParse / 1000000000 ≤ (nowExp + TokenExpirationTime) / 1000000000 := by
    have hlt : nowParse < (nowExp + TokenExpirationTime) / 1000000000 * 1000000000 :=
      lt_of_le_of_lt hclock2 hexp
    have hle := floor_seconds_le nowParse _ (le_of_lt hlt)
    rwa [Int.mul_ediv_cancel _ (by decide)] at hle
  have hverify2 : lib.verify (SigningMethod.HMAC "HS256") tok sm.secret = true := hverify
  have hparseIat : nowIat / 1000000000 ≤ nowParse / 1000000000 :=
    floor_seconds_le nowIat nowParse hclock1
  have hvalid : MapClaims.Valid decoded nowParse = true := by
    simp [MapClaims.Valid, claimPasses, hdecodedExp, hdecodedIat, hdecodedNbf, Time.Unix,
      hparseExp, hparseIat]
  have hparse : jwtParse lib tok (getHashSecretGetter sm.secret) nowParse =
      .ok { Raw := tok, Method := SigningMethodHS256, Claims := decoded, Valid := true } := by
    simp [jwtParse, hdecode, getHashSecretGetter, SigningMethodHS256, hvalid, hverify2]
  have hgetexp : getExpirationTime
      { Raw := tok, Method := SigningMethodHS256, Claims := decoded, Valid := true } =
        .ok (timeUnix (Time.Unix (nowExp + TokenExpirationTime))) := by
    simp [getExpirationTime, hdecodedExp]
  have hafter : Time.After nowGet (timeUnix (Time.Unix (nowExp + TokenExpirationTime))) = false := by
    simp only [Time.After, timeUnix, Time.Unix, decide_eq_false_iff_not, not_lt]
    exact le_of_lt hexp
  have hlookup : mapLookup tok
      (mapStore tok (NewSession (toString (sm.lastID + 1)) user) sm.token2Session) =
        some (NewSession (toString (sm.lastID + 1)) user) := by
    rw [mapLookup_mapStore, if_pos rfl]
  simp [SessionsManagerMemory.Check, CutPrefix_append, hne, SessionsManagerMemory.Get,
    hparse, hgetexp, hafter, hlookup]

/-- Witness of C20: the sample manager and the sample user, whose password is
not empty, with a toy codec that reads the claims back without the password;
the token is presented a few nanoseconds after it was created. -/
theorem session_round_trip_witness :
    sampleUser.password ≠ "" ∧
    ∃ session,
      (sampleManager.Create (toyCodec sampleClaimsRead) sampleUser 1000000000000
          1000000000005).state.Check (toyCodec sampleClaimsRead) ("Bearer " ++ "h.c.s")
          1000000000007 1000000000009 = .ok session ∧
      session.User = sampleUser ∧ session.User.ID = sampleUser.ID :=
  ⟨by decide,
   (session_round_trip (toyCodec sampleClaimsRead) sampleManager sampleUser 1000000000000
    1000000000005 1000000000007 1000000000009 "h.c.s" sampleClaimsRead rfl rfl rfl rfl rfl rfl
    (by decide) (by decide) (by decide) (by decide)).2.2⟩

/-! ## Expired tokens -/

/-- C21: expiration, evaluated where the claim fails. The sample manager
issues the token `"h.c.s"` for the sample user; presented one hour after its
expiration instant, `Check` of the in-memory manager fails with `ErrBadToken`
and not with `ErrNoAuth`, because `jwt.Parse` rejects the expired claims before
`Get` compares the times; the MySQL-backed manager does the same and leaves
the row in the table. Within the second of the expiration instant both fail
with `ErrNoAuth`. -/
theorem expired_token_is_bad_token :
    ((sampleManager.Create (toyCodec sampleClaims) sampleUser 1000000000000
        1000000000005).val = "h.c.s" ∧
      (sampleManager.Create (toyCodec sampleClaims) sampleUser 1000000000000
        1000000000005).state.Check (toyCodec sampleClaims) "Bearer h.c.s"
        (sampleExpiry + 3600000000000) (sampleExpiry + 3600000000000) = .error ErrBadToken ∧
      (sampleManager.Create (toyCodec sampleClaims) sampleUser 1000000000000
        1000000000005).state.Check (toyCodec sampleClaims) "Bearer h.c.s"
        (sampleExpiry + 5) (sampleExpiry + 7) = .error ErrNoAuth) ∧
    ((sampleManagerMySQL.Create (toyCodec sampleClaims) (toyLayout sampleExpiry) [] sampleUser
        1000000000005 1000000000000).val = "h.c.s" ∧
      (sampleManagerMySQL.Check (toyCodec sampleClaims) (toyLayout sampleExpiry)
        (sampleManagerMySQL.Create (toyCodec sampleClaims) (toyLayout sampleExpiry) []
          sampleUser 1000000000005 1000000000000).state "Bearer h.c.s"
        (sampleExpiry + 3600000000000) (sampleExpiry + 3600000000000)).err = some ErrBadToken ∧
      (sampleManagerMySQL.Check (toyCodec sampleClaims) (toyLayout sampleExpiry)
        (sampleManagerMySQL.Create (toyCodec sampleClaims) (toyLayout sampleExpiry) []
          sampleUser 1000000000005 1000000000000).state "Bearer h.c.s"
        (sampleExpiry + 3600000000000) (sampleExpiry + 3600000000000)).state =
          [("h.c.s", "42", "2001-09-16 01:46:45")] ∧
      (sampleManagerMySQL.Check (toyCodec sampleClaims) (toyLayout sampleExpiry)
        (sampleManagerMySQL.Create (toyCodec sampleClaims) (toyLayout sampleExpiry) []
          sampleUser 1000000000005 1000000000000).state "Bearer h.c.s"
        (sampleExpiry + 5) (sampleExpiry + 7)).err = some ErrNoAuth) := by
  refine ⟨⟨?_, ?_, ?_⟩, ⟨?_, ?_, ?_, ?_⟩⟩ <;> decide

/-! ## The bearer token of the header -/

theorem cutChars_some {pre str rest : List Char} (h : cutChars pre str = some rest) :
    str = pre ++ rest := by
  induction pre generalizing str with
  | nil =>
    cases str with
    | nil =>
      simp only [cutChars, Option.some.injEq] at h
      simp [← h]
    | cons c cs =>
      simp only [cutChars, Option.some.injEq] at h
      simp [← h]
  | cons p ps ih =>
    cases str with
    | nil => simp [cutChars] at h
    | cons c cs =>
      by_cases hpc : p = c
      · simp only [cutChars, hpc, if_true] at h
        rw [hpc, ih h]
        rfl
      · simp [cutChars, hpc] at h

theorem CutPrefix_none (str pre : String) (h : ∀ rest : String, str ≠ pre ++ rest) :
    CutPrefix str pre = (str, false) := by
  unfold CutPrefix
  cases hc : cutChars pre.data str.data with
  | none => rfl
  | some rest =>
    exfalso
    apply h (String.mk rest)
    apply String.ext
    rw [String.data_append]
    exact cutChars_some hc

theorem Check_eq_Get (lib : JWTCodec) (sm : SessionsManagerMemory) (token : String)
    (nowParse nowGet : Time) (hne : token ≠ "") :
    sm.Check lib ("Bearer " ++ token) nowParse nowGet = sm.Get lib token nowParse nowGet := by
  simp [SessionsManagerMemory.Check, CutPrefix_append, hne]

theorem Check_eq_Get_MySQL {σ : Type} (lib : JWTCodec) (layout : TimeLayout)
    (sm : SessionsManagerMySQL σ) (s : σ) (token : String) (nowParse nowGet : Time)
    (hne : token ≠ "") :
    sm.Check lib layout s ("Bearer " ++ token) nowParse nowGet =
      sm.Get lib layout s token nowParse nowGet := by
  simp [SessionsManagerMySQL.Check, CutPrefix_append, hne]

/-- C22: bearer extraction. For every value of the `Authorization` header,
`Check` of both managers fails with `ErrNoAuth` when the value does not start
with the literal prefix `"Bearer "`, compared character by character, or when
nothing follows the prefix; otherwise it validates exactly the remainder of
the header after that prefix as the token: it returns what `Get` returns for
the remainder. -/
theorem bearer_extraction {σ : Type} (lib : JWTCodec) (layout : TimeLayout)
    (sm : SessionsManagerMemory) (smq : SessionsManagerMySQL σ) (s : σ)
    (authorization : String) (nowParse nowGet : Time) :
    (((∀ rest : String, authorization ≠ "Bearer " ++ rest) ∨ authorization = "Bearer ") →
      sm.Check lib authorization nowParse nowGet = .error ErrNoAuth ∧
      smq.Check lib layout s authorization nowParse nowGet =
        ⟨Session.zero, some ErrNoAuth, s⟩) ∧
    (∀ token : String, token ≠ "" → authorization = "Bearer " ++ token →
      sm.Check lib authorization nowParse nowGet = sm.Get lib token nowParse nowGet ∧
      smq.Check lib layout s authorization nowParse nowGet =
        smq.Get lib layout s token nowParse nowGet) := by
  constructor
  · intro h
    rcases h with h | h
    · have hcut := CutPrefix_none authorization "Bearer " h
      simp [SessionsManagerMemory.Check, SessionsManagerMySQL.Check, hcut]
    · have hcut : CutPrefix authorization "Bearer " = ("", true) := by
        rw [h]
        decide
      simp [SessionsManagerMemory.Check, SessionsManagerMySQL.Check, hcut]
  · intro token hne hauth
    rw [hauth]
    exact ⟨Check_eq_Get lib sm token nowParse nowGet hne,
      Check_eq_Get_MySQL lib layout smq s token nowParse nowGet hne⟩

/-- Witness of C22: the header `"bearer h.c.s"`, with a small `b`, is
refused, and for `"Bearer h.c.s"` the token `"h.c.s"` is validated. -/
theorem bearer_extraction_witness :
    (sampleManager.Check (toyCodec sampleClaims) "bearer h.c.s" 1000000000007 1000000000009 =
        .error ErrNoAuth ∧
      sampleManagerMySQL.Check (toyCodec sampleClaims) (toyLayout sampleExpiry) []
        "bearer h.c.s" 1000000000007 1000000000009 = ⟨Session.zero, some ErrNoAuth, []⟩) ∧
    (sampleManager.Check (toyCodec sampleClaims) "Bearer h.c.s" 1000000000007 1000000000009 =
        sampleManager.Get (toyCodec sampleClaims) "h.c.s" 1000000000007 1000000000009 ∧
      sampleManagerMySQL.Check (toyCodec sampleClaims) (toyLayout sampleExpiry) []
        "Bearer h.c.s" 1000000000007 1000000000009 =
        sampleManagerMySQL.Get (toyCodec sampleClaims) (toyLayout sampleExpiry) []
          "h.c.s" 1000000000007 1000000000009) :=
  ⟨(bearer_extraction (toyCodec sampleClaims) (toyLayout sampleExpiry) sampleManager
      sampleManagerMySQL [] "bearer h.c.s" 1000000000007 1000000000009).1
      (Or.inl (fun rest h => by
        have hd := congrArg String.data h
        rw [String.data_append] at hd
        have h0 := congrArg List.head? hd
        have h1 : ("Bearer ".data ++ rest.data).head? = some 'B' := rfl
        rw [h1] at h0
        exact absurd h0 (by decide))),
   (bearer_extraction (toyCodec sampleClaims) (toyLayout sampleExpiry) sampleManager
      sampleManagerMySQL [] "Bearer h.c.s" 1000000000007 1000000000009).2
      "h.c.s" (by decide) (by decide)⟩

/-! ## Algorithm pinning and the expiration claim -/

theorem getHashSecretGetter_other (secret : List Nat) (token : Token)
    (h : token.Method ≠ .HMAC "HS256") :
    getHashSecretGetter secret token = .error (.other "bad sign method") := by
  unfold getHashSecretGetter
  cases hm : token.Method with
  | HMAC name =>
    have hname : name ≠ "HS256" := by
      intro e
      apply h
      rw [hm, e]
    simp [hname]
  | RSA name => rfl
  | RSAPSS name => rfl
  | ECDSA name => rfl
  | none => rfl

theorem getHashSecretGetter_HS256 (secret : List Nat) (token : Token)
    (h : token.Method = .HMAC "HS256") :
    getHashSecretGetter secret token = .ok secret := by
  unfold getHashSecretGetter
  rw [h]
  simp

theorem jwtParse_other_method (lib : JWTCodec) (secret : List Nat) (tokenString : String)
    (method : SigningMethod) (claims : MapClaims) (now : Time)
    (hdecode : lib.decode tokenString = some (method, claims))
    (hmethod : method ≠ .HMAC "HS256") :
    ∃ err, jwtParse lib tokenString (getHashSecretGetter secret) now = .error err := by
  have hkey : getHashSecretGetter secret
      { Raw := tokenString, Method := method, Claims := claims, Valid := false } =
        .error (.other "bad sign method") :=
    getHashSecretGetter_other secret _ hmethod
  refine ⟨.wrap "" (.other "bad sign method"), ?_⟩
  simp only [jwtParse, hdecode, hkey]

/-- C23: algorithm pinning. The key function built by `getHashSecretGetter`
returns the server secret for a token whose signing method is HMAC with the
algorithm name `"HS256"`, and only for such a token; it returns an error for
every other signing method, among them HS384, HS512, RS256 and `none`. So `Get`
of both managers fails with `ErrBadToken` for every token string whose header
names another algorithm, whatever its claims and signature. -/
theorem algorithm_pinning :
    (∀ (secret : List Nat) (token : Token), token.Method = .HMAC "HS256" →
      getHashSecretGetter secret token = .ok secret) ∧
    (∀ (secret : List Nat) (token : Token) (key : List Nat),
      getHashSecretGetter secret token = .ok key →
        token.Method = .HMAC "HS256" ∧ key = secret) ∧
    (∀ (secret : List Nat) (token : Token), token.Method ≠ .HMAC "HS256" →
      ∃ err, getHashSecretGetter secret token = .error err) ∧
    (∀ (secret : List Nat) (token : Token),
      token.Method = .HMAC "HS384" ∨ token.Method = .HMAC "HS512" ∨
        token.Method = .RSA "RS256" ∨ token.Method = .none →
      ∃ err, getHashSecretGetter secret token = .error err) ∧
    (∀ (lib : JWTCodec) (sm : SessionsManagerMemory) (tokenString : String)
      (method : SigningMethod) (claims : MapClaims) (nowParse nowGet : Time),
      lib.decode tokenString = some (method, claims) → method ≠ .HMAC "HS256" →
        sm.Get lib tokenString nowParse nowGet = .error ErrBadToken) ∧
    (∀ (σ : Type) (lib : JWTCodec) (layout : TimeLayout) (sm : SessionsManagerMySQL σ) (s : σ)
      (tokenString : String) (method : SigningMethod) (claims : MapClaims)
      (nowParse nowGet : Time),
      lib.decode tokenString = some (method, claims) → method ≠ .HMAC "HS256" →
        sm.Get lib layout s tokenString nowParse nowGet =
          ⟨Session.zero, some ErrBadToken, s⟩) := by
  refine ⟨getHashSecretGetter_HS256, ?_, ?_, ?_, ?_, ?_⟩
  · intro secret token key h
    by_cases hm : token.Method = .HMAC "HS256"
    · rw [getHashSecretGetter_HS256 secret token hm] at h
      injection h with h
      exact ⟨hm, h.symm⟩
    · rw [getHashSecretGetter_other secret token hm] at h
      cases h
  · intro secret token hm
    exact ⟨_, getHashSecretGetter_other secret token hm⟩
  · intro secret token hm
    refine ⟨_, getHashSecretGetter_other secret token ?_⟩
    rcases hm with hm | hm | hm | hm <;> rw [hm] <;> decide
  · intro lib sm tokenString method claims nowParse nowGet hdecode hmethod
    obtain ⟨err, herr⟩ :=
      jwtParse_other_method lib sm.secret tokenString method claims nowParse hdecode hmethod
    simp only [SessionsManagerMemory.Get, herr]
  · intro σ lib layout sm s tokenString method claims nowParse nowGet hdecode hmethod
    obtain ⟨err, herr⟩ :=
      jwtParse_other_method lib sm.secret tokenString method claims nowParse hdecode hmethod
    simp only [SessionsManagerMySQL.Get, herr]

/-- Witness of C23: a token string read back as an `HS384` token with valid
claims and an accepted signature is refused by both managers. -/
theorem algorithm_pinning_witness :
    getHashSecretGetter [1, 2, 3]
        { Raw := "h.c.s", Method := .HMAC "HS256", Claims := sampleClaims, Valid := false } =
      .ok [1, 2, 3] ∧
    sampleManager.Get (toyCodecWith (.HMAC "HS384") sampleClaims) "h.c.s" 1000000000007
        1000000000009 = .error ErrBadToken ∧
    sampleManagerMySQL.Get (toyCodecWith (.HMAC "HS384") sampleClaims) (toyLayout sampleExpiry)
        [("h.c.s", "42", "2001-09-16 01:46:45")] "h.c.s" 1000000000007 1000000000009 =
      ⟨Session.zero, some ErrBadToken, [("h.c.s", "42", "2001-09-16 01:46:45")]⟩ :=
  ⟨algorithm_pinning.1 _ _ rfl,
   algorithm_pinning.2.2.2.2.1 (toyCodecWith (.HMAC "HS384") sampleClaims) sampleManager "h.c.s"
     (.HMAC "HS384") sampleClaims 1000000000007 1000000000009 rfl (by decide),
   algorithm_pinning.2.2.2.2.2 _ (toyCodecWith (.HMAC "HS384") sampleClaims)
     (toyLayout sampleExpiry) sampleManagerMySQL [("h.c.s", "42", "2001-09-16 01:46:45")]
     "h.c.s" (.HMAC "HS384") sampleClaims 1000000000007 1000000000009 rfl (by decide)⟩

/-- C24: the expiration claim, evaluated where the claim fails. With the
sample manager holding a session for the token, a correctly signed token
without an `exp` entry makes `SessionsManagerMemory.Get` fail with
`ErrBadToken`; a correctly signed token whose `exp` entry is a string passes
`jwt.Parse` and then makes `Get` panic in the unchecked conversion
`expirationTime.(float64)` of `getExpirationTime`, instead of returning
`ErrBadToken`. -/
theorem text_exp_claim_panics :
    jwtParse (toyCodec claimsWithTextExp) "h.c.s" (getHashSecretGetter sampleManager.secret)
        1000000000007 =
      .ok { Raw := "h.c.s", Method := SigningMethodHS256, Claims := claimsWithTextExp,
            Valid := true } ∧
    sampleManager.Get (toyCodec claimsWithTextExp) "h.c.s" 1000000000007 1000000000009 =
      .panic "interface conversion: interface \x7b\x7d is not float64" ∧
    sampleManager.Get (toyCodec claimsWithTextExp) "h.c.s" 1000000000007 1000000000009 ≠
      .error ErrBadToken ∧
    sampleManager.Get (toyCodec claimsWithoutExp) "h.c.s" 1000000000007 1000000000009 =
      .error ErrBadToken := by
  refine ⟨rfl, ?_, ?_, ?_⟩ <;> decide

/-! ## The MySQL-backed manager -/

theorem jwtParse_ok_valid (lib : JWTCodec) (tokenString : String)
    (keyFunc : Token → Except Error (List Nat)) (now : Time) (tk : Token)
    (h : jwtParse lib tokenString keyFunc now = .ok tk) : tk.Valid = true := by
  unfold jwtParse at h
  cases hd : lib.decode tokenString with
  | none => simp [hd] at h
  | some mc =>
    obtain ⟨method, claims⟩ := mc
    simp only [hd] at h
    cases hk : keyFunc { Raw := tokenString, Method := method, Claims := claims, Valid := false } with
    | error e => simp [hk] at h
    | ok key =>
      simp only [hk] at h
      split at h
      · cases h
      · split at h
        · cases h
        · injection h with h
          rw [← h]

theorem MySQL_Get_row {σ : Type} (lib : JWTCodec) (layout : TimeLayout)
    (sm : SessionsManagerMySQL σ) (s : σ) (tokenString : String) (nowParse nowGet : Time)
    (tk : Token)
    (hparse : jwtParse lib tokenString (getHashSecretGetter sm.secret) nowParse = .ok tk)
    (rowToken rowUserID timeVal : String) (expiration : Time)
    (hrow : sm.DB.QueryRow s tokenString = .ok (rowToken, rowUserID, timeVal))
    (htime : layout.Parse timeVal = .ok expiration) :
    sm.Get lib layout s tokenString nowParse nowGet =
      if nowGet.After expiration then
        ⟨Session.zero, some ErrNoAuth, (sm.DB.ExecDelete s tokenString).state⟩
      else
        match sm.UserRepo.GetByID rowUserID with
        | .error _ => ⟨Session.zero, some ErrNoAuth, s⟩
        | .ok user => ⟨NewSession rowToken user, none, s⟩ := by
  have hvalid := jwtParse_ok_valid lib tokenString _ nowParse tk hparse
  simp only [SessionsManagerMySQL.Get, hparse, hvalid, hrow, htime]
  rfl

theorem MySQL_Get_no_row {σ : Type} (lib : JWTCodec) (layout : TimeLayout)
    (sm : SessionsManagerMySQL σ) (s : σ) (tokenString : String) (nowParse nowGet : Time)
    (tk : Token)
    (hparse : jwtParse lib tokenString (getHashSecretGetter sm.secret) nowParse = .ok tk)
    (err : Error) (hrow : sm.DB.QueryRow s tokenString = .error err) :
    sm.Get lib layout s tokenString nowParse nowGet =
      if err.Is ErrNoRows then ⟨Session.zero, some ErrNoAuth, s⟩
      else ⟨Session.zero, some err, s⟩ := by
  have hvalid := jwtParse_ok_valid lib tokenString _ nowParse tk hparse
  simp only [SessionsManagerMySQL.Get, hparse, hvalid, hrow]
  rfl

theorem MySQL_Get_bad_time {σ : Type} (lib : JWTCodec) (layout : TimeLayout)
    (sm : SessionsManagerMySQL σ) (s : σ) (tokenString : String) (nowParse nowGet : Time)
    (tk : Token)
    (hparse : jwtParse lib tokenString (getHashSecretGetter sm.secret) nowParse = .ok tk)
    (rowToken rowUserID timeVal : String) (err : Error)
    (hrow : sm.DB.QueryRow s tokenString = .ok (rowToken, rowUserID, timeVal))
    (htime : layout.Parse timeVal = .error err) :
    sm.Get lib layout s tokenString nowParse nowGet = ⟨Session.zero, some err, s⟩ := by
  have hvalid := jwtParse_ok_valid lib tokenString _ nowParse tk hparse
  simp only [SessionsManagerMySQL.Get, hparse, hvalid, hrow, htime]
  rfl

/-- The MySQL-backed `Get` on a token that `jwt.Parse` accepts, so one that is
correctly signed and whose time claims are valid at the clock reading of
`jwt.Parse`: it returns `ErrNoAuth` when the `sessions` table has no row for
the token; when the row's expiration is in the past, whatever the `DELETE` of
the row returns, the store being the one the `DELETE` leaves; and when
`UserRepo.GetByID` does not find the row's user id. Otherwise it succeeds with
the row's token and the freshly fetched user. So on such a token it succeeds
if and only if there is a row for the token, its expiration is not in the past
and `UserRepo.GetByID` finds its user id. -/
theorem mysql_validation {σ : Type} (lib : JWTCodec) (layout : TimeLayout)
    (sm : SessionsManagerMySQL σ) (s : σ) (tokenString : String) (nowParse nowGet : Time)
    (tk : Token)
    (hparse : jwtParse lib tokenString (getHashSecretGetter sm.secret) nowParse = .ok tk) :
    (∀ err, sm.DB.QueryRow s tokenString = .error err → err.Is ErrNoRows = true →
      sm.Get lib layout s tokenString nowParse nowGet = ⟨Session.zero, some ErrNoAuth, s⟩) ∧
    (∀ rowToken rowUserID timeVal expiration,
      sm.DB.QueryRow s tokenString = .ok (rowToken, rowUserID, timeVal) →
      layout.Parse timeVal = .ok expiration →
        (nowGet.After expiration = true →
          sm.Get lib layout s tokenString nowParse nowGet =
            ⟨Session.zero, some ErrNoAuth, (sm.DB.ExecDelete s tokenString).state⟩) ∧
        (nowGet.After expiration = false →
          (∀ err, sm.UserRepo.GetByID rowUserID = .error err →
            sm.Get lib layout s tokenString nowParse nowGet =
              ⟨Session.zero, some ErrNoAuth, s⟩) ∧
          (∀ user, sm.UserRepo.GetByID rowUserID = .ok user →
            sm.Get lib layout s tokenString nowParse nowGet =
              ⟨NewSession rowToken user, none, s⟩))) ∧
    ((sm.Get lib layout s tokenString nowParse nowGet).err = none ↔
      ∃ rowToken rowUserID timeVal expiration user,
        sm.DB.QueryRow s tokenString = .ok (rowToken, rowUserID, timeVal) ∧
        layout.Parse timeVal = .ok expiration ∧
        nowGet.After expiration = false ∧
        sm.UserRepo.GetByID rowUserID = .ok user) := by
  refine ⟨?_, ?_, ?_⟩
  · intro err hrow his
    rw [MySQL_Get_no_row lib layout sm s tokenString nowParse nowGet tk hparse err hrow,
      if_pos his]
  · intro rowToken rowUserID timeVal expiration hrow htime
    rw [MySQL_Get_row lib layout sm s tokenString nowParse nowGet tk hparse rowToken rowUserID
      timeVal expiration hrow htime]
    constructor
    · intro hafter
      rw [if_pos hafter]
    · intro hafter
      rw [if_neg (by rw [hafter]; decide)]
      constructor
      · intro err huser
        rw [huser]
      · intro user huser
        rw [huser]
  · constructor
    · intro hok
      cases hrow : sm.DB.QueryRow s tokenString with
      | error err =>
        rw [MySQL_Get_no_row lib layout sm s tokenString nowParse nowGet tk hparse err hrow]
          at hok
        by_cases his : err.Is ErrNoRows = true
        · rw [if_pos his] at hok
          cases hok
        · rw [if_neg his] at hok
          cases hok
      | ok row =>
        obtain ⟨rowToken, rowUserID, timeVal⟩ := row
        cases htime : layout.Parse timeVal with
        | error err =>
          rw [MySQL_Get_bad_time lib layout sm s tokenString nowParse nowGet tk hparse rowToken
            rowUserID timeVal err hrow htime] at hok
          cases hok
        | ok expiration =>
          rw [MySQL_Get_row lib layout sm s tokenString nowParse nowGet tk hparse rowToken
            rowUserID timeVal expiration hrow htime] at hok
          by_cases hafter : nowGet.After expiration = true
          · rw [if_pos hafter] at hok
            cases hok
          · rw [if_neg hafter] at hok
            cases huser : sm.UserRepo.GetByID rowUserID with
            | error err =>
              rw [huser] at hok
              cases hok
            | ok user =>
              exact ⟨rowToken, rowUserID, timeVal, expiration, user, rfl, htime,
                by simpa using hafter, huser⟩
    · rintro ⟨rowToken, rowUserID, timeVal, expiration, user, hrow, htime, hafter, huser⟩
      rw [MySQL_Get_row lib layout sm s tokenString nowParse nowGet tk hparse rowToken rowUserID
        timeVal expiration hrow htime, if_neg (by rw [hafter]; decide), huser]

/-- The cases of `mysql_validation` on the model table: the row of the token
`"h.c.s"` names the sample user and is not expired when the clock reads
`1000000000009`; it is expired one second after the sample expiry; and for the
user id `"43"` no user is found. -/
theorem mysql_validation_witness :
    sampleManagerMySQL.Get (toyCodec sampleClaims) (toyLayout sampleExpiry)
        [("h.c.s", "42", "2001-09-16 01:46:45")] "h.c.s" 1000000000007 1000000000009 =
      ⟨NewSession "h.c.s" sampleUser, none, [("h.c.s", "42", "2001-09-16 01:46:45")]⟩ ∧
    sampleManagerMySQL.Get (toyCodec sampleClaims) (toyLayout sampleExpiry)
        [("h.c.s", "43", "2001-09-16 01:46:45")] "h.c.s" 1000000000007 1000000000009 =
      ⟨Session.zero, some ErrNoAuth, [("h.c.s", "43", "2001-09-16 01:46:45")]⟩ ∧
    sampleManagerMySQL.Get (toyCodec sampleClaims) (toyLayout sampleExpiry)
        [("h.c.s", "42", "2001-09-16 01:46:45")] "h.c.s" 1000000000007
        (sampleExpiry + 1000000000) =
      ⟨Session.zero, some ErrNoAuth, []⟩ ∧
    sampleManagerMySQL.Get (toyCodec sampleClaims) (toyLayout sampleExpiry)
        [] "h.c.s" 1000000000007 1000000000009 = ⟨Session.zero, some ErrNoAuth, []⟩ :=
  ⟨(((mysql_validation (toyCodec sampleClaims) (toyLayout sampleExpiry) sampleManagerMySQL
        [("h.c.s", "42", "2001-09-16 01:46:45")] "h.c.s" 1000000000007 1000000000009 _ rfl).2.1
        "h.c.s" "42" "2001-09-16 01:46:45" sampleExpiry rfl rfl).2 (by decide)).2
        sampleUser rfl,
   (((mysql_validation (toyCodec sampleClaims) (toyLayout sampleExpiry) sampleManagerMySQL
        [("h.c.s", "43", "2001-09-16 01:46:45")] "h.c.s" 1000000000007 1000000000009 _ rfl).2.1
        "h.c.s" "43" "2001-09-16 01:46:45" sampleExpiry rfl rfl).2 (by decide)).1
        ErrNoUser rfl,
   ((mysql_validation (toyCodec sampleClaims) (toyLayout sampleExpiry) sampleManagerMySQL
        [("h.c.s", "42", "2001-09-16 01:46:45")] "h.c.s" 1000000000007
        (sampleExpiry + 1000000000) _ rfl).2.1
        "h.c.s" "42" "2001-09-16 01:46:45" sampleExpiry rfl rfl).1 (by decide),
   (mysql_validation (toyCodec sampleClaims) (toyLayout sampleExpiry) sampleManagerMySQL
        [] "h.c.s" 1000000000007 1000000000009 _ rfl).1 ErrNoRows rfl (by decide)⟩

/-! ## What a session binds, and expired rows -/

/-- C25: session binding, evaluated where the claim fails. The in-memory
sample manager issues the token `"h.c.s"` for the sample user, and the session
a successful `Check` of `"Bearer h.c.s"` returns has that user as its `User`
but the `Token` `"2"`, the decimal value of the manager's counter, not the
bearer token that was presented. The MySQL-backed manager, given the same
user, codec and clock readings, returns the session with the bearer token as
its `Token` and that user as its `User`. -/
theorem memory_session_token_is_counter :
    ((sampleManager.Create (toyCodec sampleClaimsRead) sampleUser 1000000000000
        1000000000005).val = "h.c.s" ∧
      (sampleManager.Create (toyCodec sampleClaimsRead) sampleUser 1000000000000
        1000000000005).state.Check (toyCodec sampleClaimsRead) "Bearer h.c.s"
        1000000000007 1000000000009 = .ok { Token := "2", User := sampleUser } ∧
      ({ Token := "2", User := sampleUser } : Session).Token ≠ "h.c.s") ∧
    ((sampleManagerMySQL.Create (toyCodec sampleClaimsRead) (toyLayout sampleExpiry) []
        sampleUser 1000000000005 1000000000000).val = "h.c.s" ∧
      sampleManagerMySQL.Check (toyCodec sampleClaimsRead) (toyLayout sampleExpiry)
        (sampleManagerMySQL.Create (toyCodec sampleClaimsRead) (toyLayout sampleExpiry) []
          sampleUser 1000000000005 1000000000000).state "Bearer h.c.s"
        1000000000007 1000000000009 =
        ⟨{ Token := "h.c.s", User := sampleUser }, none,
          [("h.c.s", "42", "2001-09-16 01:46:45")]⟩) := by
  refine ⟨⟨?_, ?_, ?_⟩, ⟨?_, ?_⟩⟩ <;> decide

/-- C26: MySQL-backed validation, evaluated where the claim fails. The model
table holds the row of the token `"h.c.s"` for the sample user, with the
expiration `sampleExpiry`, which is also the `exp` claim of the token; the
token is correctly signed: the codec reads it back as an `HS256` token and
verifies its signature under the server secret. One hour after the expiration
the row is there and is expired, yet `SessionsManagerMySQL.Get` returns
`ErrBadToken`, not `ErrNoAuth`, and leaves the row in the table, because
`jwt.Parse` rejects the expired claims first. Within the second of the
expiration `Get` returns `ErrNoAuth` and deletes the row. -/
theorem mysql_expired_row_is_bad_token :
    (sessionsTable.QueryRow [("h.c.s", "42", "2001-09-16 01:46:45")] "h.c.s" =
        .ok ("h.c.s", "42", "2001-09-16 01:46:45") ∧
      (toyLayout sampleExpiry).Parse "2001-09-16 01:46:45" = .ok sampleExpiry ∧
      Time.After (sampleExpiry + 3600000000000) sampleExpiry = true) ∧
    ((toyCodec sampleClaimsRead).decode "h.c.s" = some (SigningMethodHS256, sampleClaimsRead) ∧
      (toyCodec sampleClaimsRead).verify SigningMethodHS256 "h.c.s" sampleManagerMySQL.secret =
        true ∧
      mapLookup "exp" sampleClaimsRead = some (.num (Time.Unix sampleExpiry))) ∧
    sampleManagerMySQL.Get (toyCodec sampleClaimsRead) (toyLayout sampleExpiry)
        [("h.c.s", "42", "2001-09-16 01:46:45")] "h.c.s"
        (sampleExpiry + 3600000000000) (sampleExpiry + 3600000000000) =
      ⟨Session.zero, some ErrBadToken, [("h.c.s", "42", "2001-09-16 01:46:45")]⟩ ∧
    sampleManagerMySQL.Get (toyCodec sampleClaimsRead) (toyLayout sampleExpiry)
        [("h.c.s", "42", "2001-09-16 01:46:45")] "h.c.s"
        (sampleExpiry + 5) (sampleExpiry + 7) =
      ⟨Session.zero, some ErrNoAuth, []⟩ := by
  refine ⟨⟨rfl, rfl, by decide⟩, ⟨rfl, rfl, by decide⟩, by decide, by decide⟩

/-! ## Error reporting of the post handlers -/

theorem Is_sentinel_unique (e : Error) (a b : String)
    (ha : e.Is (.sentinel a) = true) (hb : e.Is (.sentinel b) = true) : a = b := by
  induction e with
  | sentinel name =>
    simp only [Error.Is, decide_eq_true_eq, Error.sentinel.injEq] at ha hb
    rw [← ha, ← hb]
  | other msg =>
    simp [Error.Is] at ha
  | wrap msg inner ih =>
    simp only [Error.Is, Bool.or_eq_true, decide_eq_true_eq] at ha hb
    rcases ha with ha | ha
    · cases ha
    · rcases hb with hb | hb
      · cases hb
      · exact ih ha hb

theorem SendJSONMessage_status (w : ResponseWriter) (message : String) (status : Int)
    (hw : w.Status = none) : (SendJSONMessage w message status).Status = some status := by
  simp [SendJSONMessage, ResponseWriter.Write, ResponseWriter.WriteHeader, hw]

/-- C27: distinct error reporting. For every error value, on a response
writer whose status was not sent yet, `handlePostRepoErrors` answers 404 when
the error is or wraps `ErrNoPost`, 403 when it is or wraps `ErrNoAccess`, 404
when it is or wraps `comment.ErrNoComment`, and 500 for any other error; for
the `nil` error it does nothing. Hence a not-found or authorization error is
never answered with 500, and `ErrNoAccess` is never answered with the status
404 of a not-found error. -/
theorem distinct_error_reporting (w : ResponseWriter) (hw : w.Status = none) (e : Error) :
    (e.Is ErrNoPost = true → (handlePostRepoErrors w (some e)).Status = some 404) ∧
    (e.Is ErrNoAccess = true → (handlePostRepoErrors w (some e)).Status = some 403) ∧
    (e.Is ErrNoComment = true → (handlePostRepoErrors w (some e)).Status = some 404) ∧
    (e.Is ErrNoPost = false → e.Is ErrNoAccess = false → e.Is ErrNoComment = false →
      (handlePostRepoErrors w (some e)).Status = some 500) ∧
    (e.Is ErrNoPost = true ∨ e.Is ErrNoAccess = true ∨ e.Is ErrNoComment = true →
      (handlePostRepoErrors w (some e)).Status ≠ some 500) ∧
    (e.Is ErrNoAccess = true → (handlePostRepoErrors w (some e)).Status ≠ some 404) ∧
    handlePostRepoErrors w none = w := by
  have hpost : e.Is ErrNoPost = true → (handlePostRepoErrors w (some e)).Status = some 404 := by
    intro h
    simp only [handlePostRepoErrors, h, if_true]
    exact SendJSONMessage_status w _ _ hw
  have haccess : e.Is ErrNoAccess = true →
      (handlePostRepoErrors w (some e)).Status = some 403 := by
    intro h
    have hnp : e.Is ErrNoPost = false := by
      cases hp : e.Is ErrNoPost with
      | false => rfl
      | true => exact absurd (Is_sentinel_unique e _ _ hp h) (by decide)
    simp only [handlePostRepoErrors, h, hnp, if_true]
    exact SendJSONMessage_status w _ _ hw
  have hcomment : e.Is ErrNoComment = true →
      (handlePostRepoErrors w (some e)).Status = some 404 := by
    intro h
    have hnp : e.Is ErrNoPost = false := by
      cases hp : e.Is ErrNoPost with
      | false => rfl
      | true => exact absurd (Is_sentinel_unique e _ _ hp h) (by decide)
    have hna : e.Is ErrNoAccess = false := by
      cases hp : e.Is ErrNoAccess with
      | false => rfl
      | true => exact absurd (Is_sentinel_unique e _ _ hp h) (by decide)
    simp only [handlePostRepoErrors, h, hnp, hna, if_true]
    exact SendJSONMessage_status w _ _ hw
  refine ⟨hpost, haccess, hcomment, ?_, ?_, ?_, rfl⟩
  · intro h1 h2 h3
    simp [handlePostRepoErrors, h1, h2, h3, ResponseWriter.WriteHeader, hw,
      StatusInternalServerError]
  · intro h
    rcases h with h | h | h
    · rw [hpost h]
      decide
    · rw [haccess h]
      decide
    · rw [hcomment h]
      decide
  · intro h
    rw [haccess h]
    decide

/-- Witness of C27: a wrapped `ErrNoAccess` on a fresh response writer. -/
theorem distinct_error_reporting_witness :
    (handlePostRepoErrors freshWriter (some (.wrap "in delete: " ErrNoAccess))).Status =
        some 403 ∧
    (handlePostRepoErrors freshWriter (some (.wrap "in delete: " ErrNoAccess))).Status ≠
        some 404 ∧
    (handlePostRepoErrors freshWriter (some ErrNoPost)).Status = some 404 ∧
    (handlePostRepoErrors freshWriter (some ErrNoComment)).Status = some 404 ∧
    (handlePostRepoErrors freshWriter (some (.other "some error"))).Status = some 500 :=
  ⟨(distinct_error_reporting freshWriter rfl (.wrap "in delete: " ErrNoAccess)).2.1 (by decide),
   (distinct_error_reporting freshWriter rfl (.wrap "in delete: " ErrNoAccess)).2.2.2.2.2.1
     (by decide),
   (distinct_error_reporting freshWriter rfl ErrNoPost).1 (by decide),
   (distinct_error_reporting freshWriter rfl ErrNoComment).2.2.1 (by decide),
   (distinct_error_reporting freshWriter rfl (.other "some error")).2.2.2.1
     (by decide) (by decide) (by decide)⟩

/-! ## The authentication gate -/

theorem SessionFromContext_with (ctx : Context) (sess : Session) :
    SessionFromContext (ContextWithSession ctx sess) = (sess, none) := by
  simp [SessionFromContext, ContextWithSession, Context.Value]

/-- C28: authentication gate. For every request, when `Check` of the session
manager fails, `Auth` answers 401 with the message `"unauthorized"` and does
nothing else, whatever the wrapped handler is: on a response writer whose
status was not sent yet, the status sent is `401`, the body gains the JSON
message `"unauthorized"` and nothing else, the `Content-Type` header is set to
`application/json`, and the rest of the world is untouched. When `Check`
succeeds, `Auth` does what the wrapped handler does on the request whose
context yields, through `SessionFromContext`, exactly the session `Check`
returned. So the wrapped handler is invoked, once, if and only if `Check`
succeeds: a handler that counts its invocations counts one more exactly then. -/
theorem authentication_gate {τ : Type} (sm : SessionsManager) (next : Handler τ)
    (w : ResponseWriter) (t : τ) (r : Request) :
    ((sm.Check r).2 ≠ none →
      Auth sm next (w, t) r = (SendJSONMessage w "unauthorized" 401, t)) ∧
    ((sm.Check r).2 = none →
      Auth sm next (w, t) r =
        next (w, t) (r.WithContext (ContextWithSession r.ctx (sm.Check r).1)) ∧
      SessionFromContext (r.WithContext (ContextWithSession r.ctx (sm.Check r).1)).ctx =
        ((sm.Check r).1, none)) ∧
    (∀ n : Nat, (Auth sm countingHandler (w, n) r).2 = n + 1 ↔ (sm.Check r).2 = none) ∧
    (w.Status = none → (sm.Check r).2 ≠ none →
      (Auth sm next (w, t) r).1.Status = some 401 ∧
      (Auth sm next (w, t) r).1.Body = w.Body ++ [.message { Message := "unauthorized" }] ∧
      (Auth sm next (w, t) r).1.Header =
        mapStore "Content-Type" "application/json" w.Header ∧
      (Auth sm next (w, t) r).2 = t) := by
  have hfail : ∀ (υ : Type) (h : Handler υ) (u : υ), (sm.Check r).2 ≠ none →
      Auth sm h (w, u) r = (SendJSONMessage w "unauthorized" 401, u) := by
    intro υ h u hne
    unfold Auth
    cases hc : sm.Check r with
    | mk sess err =>
      rw [hc] at hne
      cases err with
      | none => exact absurd rfl hne
      | some e => rfl
  have hpass : ∀ (υ : Type) (h : Handler υ) (u : υ), (sm.Check r).2 = none →
      Auth sm h (w, u) r =
        h (w, u) (r.WithContext (ContextWithSession r.ctx (sm.Check r).1)) := by
    intro υ h u heq
    unfold Auth
    cases hc : sm.Check r with
    | mk sess err =>
      rw [hc] at heq
      cases err with
      | none => rfl
      | some e => cases heq
  refine ⟨hfail τ next t, ?_, ?_, ?_⟩
  · intro heq
    exact ⟨hpass τ next t heq, SessionFromContext_with r.ctx _⟩
  · intro n
    constructor
    · intro hcount
      by_contra hne
      rw [hfail Nat countingHandler n hne] at hcount
      simp at hcount
    · intro heq
      rw [hpass Nat countingHandler n heq]
      rfl
  · intro hw hne
    rw [hfail τ next t hne]
    refine ⟨SendJSONMessage_status w _ _ hw, ?_, ?_, rfl⟩
    · simp [SendJSONMessage, ResponseWriter.Write, ResponseWriter.WriteHeader, hw]
    · simp [SendJSONMessage, ResponseWriter.Write, ResponseWriter.WriteHeader, hw]

/-- Witness of C28: the sample session manager refuses `"Bearer x"`, which on
a fresh response writer gives the status `401` with the message
`"unauthorized"` and a handler that was not invoked, and it accepts
`"Bearer h.c.s"`. -/
theorem authentication_gate_witness :
    Auth sampleSessionsManager countingHandler (freshWriter, 0) ⟨"Bearer x", [], ""⟩ =
      (SendJSONMessage freshWriter "unauthorized" 401, 0) ∧
    ((Auth sampleSessionsManager countingHandler (freshWriter, 0)
        ⟨"Bearer x", [], ""⟩).1.Status = some 401 ∧
      (Auth sampleSessionsManager countingHandler (freshWriter, 0)
        ⟨"Bearer x", [], ""⟩).1.Body =
          freshWriter.Body ++ [.message { Message := "unauthorized" }] ∧
      (Auth sampleSessionsManager countingHandler (freshWriter, 0)
        ⟨"Bearer x", [], ""⟩).1.Header =
          mapStore "Content-Type" "application/json" freshWriter.Header ∧
      (Auth sampleSessionsManager countingHandler (freshWriter, 0)
        ⟨"Bearer x", [], ""⟩).2 = 0) ∧
    Auth sampleSessionsManager countingHandler (freshWriter, 0) ⟨"Bearer x", [], ""⟩ =
      ({ Header := [("Content-Type", "application/json")], Status := some 401,
         Body := [.message { Message := "unauthorized" }] }, 0) ∧
    (Auth sampleSessionsManager countingHandler (freshWriter, 0) ⟨"Bearer h.c.s", [], ""⟩ =
      countingHandler (freshWriter, 0)
        (Request.WithContext ⟨"Bearer h.c.s", [], ""⟩
          (ContextWithSession [] (sampleSessionsManager.Check ⟨"Bearer h.c.s", [], ""⟩).1)) ∧
     SessionFromContext (Request.WithContext ⟨"Bearer h.c.s", [], ""⟩
          (ContextWithSession [] (sampleSessionsManager.Check ⟨"Bearer h.c.s", [], ""⟩).1)).ctx =
        ((sampleSessionsManager.Check ⟨"Bearer h.c.s", [], ""⟩).1, none)) ∧
    (Auth sampleSessionsManager countingHandler (freshWriter, 0)
        ⟨"Bearer h.c.s", [], ""⟩).2 = 1 :=
  ⟨(authentication_gate sampleSessionsManager countingHandler freshWriter 0
      ⟨"Bearer x", [], ""⟩).1 (by decide),
   (authentication_gate sampleSessionsManager countingHandler freshWriter 0
      ⟨"Bearer x", [], ""⟩).2.2.2 rfl (by decide),
   by decide,
   (authentication_gate sampleSessionsManager countingHandler freshWriter 0
      ⟨"Bearer h.c.s", [], ""⟩).2.1 (by decide),
   ((authentication_gate sampleSessionsManager countingHandler freshWriter 0
      ⟨"Bearer h.c.s", [], ""⟩).2.2.1 0).mpr (by decide)⟩

/-! ## The lock of the in-memory repository -/

/-- C29: the lock discipline, evaluated where the claim fails. `GetByID` takes
only the shared read lock, and on the sample repository `GetByID("2")` changes
the stored post: its `Views` go from `5` to `6`. The other three methods under
the read lock, `GetAll`, `GetByCategory` and `GetUserPosts`, leave every
repository unchanged. -/
theorem GetByID_writes_under_read_lock :
    (RepoCall.GetByID "2").lock = .read ∧
    (RepoCall.GetByID "2").stateAfter sampleRepo ≠ sampleRepo ∧
    (mapLookup "2" sampleRepo.id2Post).map Post.Views = some 5 ∧
    (mapLookup "2" ((RepoCall.GetByID "2").stateAfter sampleRepo).id2Post).map Post.Views =
      some 6 ∧
    (∀ repo : PostMemoryRepository, RepoCall.GetAll.lock = .read ∧
      RepoCall.GetAll.stateAfter repo = repo) ∧
    (∀ (repo : PostMemoryRepository) (category : String),
      (RepoCall.GetByCategory category).lock = .read ∧
      (RepoCall.GetByCategory category).stateAfter repo = repo) ∧
    (∀ (repo : PostMemoryRepository) (username : String),
      (RepoCall.GetUserPosts username).lock = .read ∧
      (RepoCall.GetUserPosts username).stateAfter repo = repo) := by
  refine ⟨rfl, by decide, by decide, by decide, ?_, ?_, ?_⟩
  · intro repo
    exact ⟨rfl, rfl⟩
  · intro repo category
    exact ⟨rfl, rfl⟩
  · intro repo username
    exact ⟨rfl, rfl⟩

/-! ## The ledger as a map -/

theorem ledgerMap_nil (u : String) : ledgerMap [] u = none := rfl

theorem ledgerMap_cons (v : Vote) (vs : List Vote) (u : String) :
    ledgerMap (v :: vs) u = if v.UserID = u then some v.Value else ledgerMap vs u := by
  unfold ledgerMap
  by_cases h : v.UserID = u
  · simp [findVote, h]
  · simp [findVote, h, Option.map_map, Function.comp_def]

theorem ledgerMap_append (a b : List Vote) (u : String) :
    ledgerMap (a ++ b) u =
      match ledgerMap a u with
      | some x => some x
      | none => ledgerMap b u := by
  induction a with
  | nil => simp [ledgerMap_nil]
  | cons v vs ih =>
    rw [List.cons_append, ledgerMap_cons, ledgerMap_cons]
    by_cases h : v.UserID = u
    · simp [h]
    · simp [h, ih]

theorem ledgerMap_none_of_absent (votes : List Vote) (u : String)
    (h : ∀ w ∈ votes, w.UserID ≠ u) : ledgerMap votes u = none := by
  unfold ledgerMap
  rw [findVote_eq_none.mpr h]
  rfl

theorem mem_of_ledgerMap (votes : List Vote) (u : String) (x : Int)
    (h : ledgerMap votes u = some x) : (⟨u, x⟩ : Vote) ∈ votes := by
  induction votes with
  | nil => simp [ledgerMap_nil] at h
  | cons v vs ih =>
    rw [ledgerMap_cons] at h
    by_cases hv : v.UserID = u
    · rw [if_pos hv] at h
      injection h with h
      have : v = ⟨u, x⟩ := by
        cases v
        simp_all
      rw [this]
      exact List.mem_cons_self _ _
    · rw [if_neg hv] at h
      exact List.mem_cons_of_mem _ (ih h)

theorem ledgerMap_of_mem (votes : List Vote) (hnd : DistinctUsers votes) (w : Vote)
    (hw : w ∈ votes) : ledgerMap votes w.UserID = some w.Value := by
  induction votes with
  | nil => cases hw
  | cons v vs ih =>
    unfold DistinctUsers at hnd
    rw [List.map_cons, List.nodup_cons] at hnd
    rw [ledgerMap_cons]
    rcases List.mem_cons.mp hw with rfl | hmem
    · rw [if_pos rfl]
    · have hne : v.UserID ≠ w.UserID := by
        intro e
        apply hnd.1
        rw [e]
        exact List.mem_map_of_mem _ hmem
      rw [if_neg hne]
      exact ih hnd.2 hmem

theorem ledgerMap_perm (l1 l2 : List Vote) (hperm : List.Perm l1 l2)
    (hnd : DistinctUsers l1) : ledgerMap l1 = ledgerMap l2 := by
  have hnd2 : DistinctUsers l2 := by
    unfold DistinctUsers at hnd ⊢
    exact (hperm.map Vote.UserID).nodup_iff.mp hnd
  funext u
  cases h1 : ledgerMap l1 u with
  | some x =>
    have hmem := hperm.subset (mem_of_ledgerMap l1 u x h1)
    exact (ledgerMap_of_mem l2 hnd2 _ hmem).symm
  | none =>
    cases h2 : ledgerMap l2 u with
    | none => rfl
    | some y =>
      have hmem := hperm.symm.subset (mem_of_ledgerMap l2 u y h2)
      have := ledgerMap_of_mem l1 hnd _ hmem
      rw [h1] at this
      cases this

theorem changeVotes_map (p : Post) (u : String) (d : Int) :
    ledgerMap (p.changeVotes u d).Votes = Function.update (ledgerMap p.Votes) u (some d) := by
  funext x
  rcases votes_cases p.Votes u with habs | ⟨pre, v, post, hvotes, hpre, hv⟩
  · rw [changeVotes_absent p u d habs]
    show ledgerMap (p.Votes ++ [⟨u, d⟩]) x = _
    rw [ledgerMap_append, ledgerMap_cons, ledgerMap_nil]
    by_cases hx : x = u
    · rw [hx, Function.update_same, ledgerMap_none_of_absent p.Votes u habs]
      simp
    · rw [Function.update_noteq hx]
      have hux : ¬ u = x := fun e => hx e.symm
      cases h : ledgerMap p.Votes x with
      | none => simp [hux]
      | some y => rfl
  · have hpre_none : ledgerMap pre u = none := ledgerMap_none_of_absent pre u hpre
    by_cases hvd : v.Value = d
    · rw [changeVotes_same p u d pre post v hvotes hpre hv hvd]
      by_cases hx : x = u
      · rw [hx, Function.update_same, hvotes, ledgerMap_append, hpre_none, ledgerMap_cons,
          if_pos hv, hvd]
      · rw [Function.update_noteq hx]
    · rw [changeVotes_other p u d pre post v hvotes hpre hv hvd]
      show ledgerMap (pre ++ ⟨u, d⟩ :: post) x = _
      by_cases hx : x = u
      · rw [hx, Function.update_same, ledgerMap_append, hpre_none, ledgerMap_cons]
        simp
      · rw [Function.update_noteq hx, hvotes, ledgerMap_append, ledgerMap_append,
          ledgerMap_cons, ledgerMap_cons]
        have hux : ¬ u = x := fun e => hx e.symm
        have hvx : ¬ v.UserID = x := fun e => hx (e.symm.trans hv)
        simp [hux, hvx]

theorem Unvote_map (p : Post) (u : String) (hnd : DistinctUsers p.Votes) :
    ledgerMap (p.Unvote u).Votes = Function.update (ledgerMap p.Votes) u none := by
  funext x
  rcases votes_cases p.Votes u with habs | ⟨pre, v, post, hvotes, hpre, hv⟩
  · rw [Unvote_absent p u habs]
    by_cases hx : x = u
    · rw [hx, Function.update_same, ledgerMap_none_of_absent p.Votes u habs]
    · rw [Function.update_noteq hx]
  · rw [Unvote_present p u pre post v hvotes hpre hv]
    show ledgerMap (swapOut pre post) x = _
    have hperm := swapOut_perm pre v post
    have hnd2 : DistinctUsers (v :: swapOut pre post) := by
      unfold DistinctUsers at hnd ⊢
      rw [hvotes] at hnd
      exact (hperm.map Vote.UserID).nodup_iff.mpr hnd
    have hmap := ledgerMap_perm _ _ hperm hnd2
    have hnd3 := hnd2
    unfold DistinctUsers at hnd3
    rw [List.map_cons, List.nodup_cons] at hnd3
    by_cases hx : x = u
    · rw [hx, Function.update_same]
      apply ledgerMap_none_of_absent
      intro w hw hwu
      apply hnd3.1
      rw [hv, ← hwu]
      exact List.mem_map_of_mem _ hw
    · rw [Function.update_noteq hx, hvotes, ← hmap, ledgerMap_cons]
      have hvx : ¬ v.UserID = x := fun e => hx (e.symm.trans hv)
      rw [if_neg hvx]

theorem apply_distinct (p : Post) (c : Call) (h : DistinctUsers p.Votes) :
    DistinctUsers (Call.apply p c).Votes := by
  cases c with
  | upvote u => exact changeVotes_distinct p u 1 h
  | downvote u => exact changeVotes_distinct p u (-1) h
  | unvote u => exact Unvote_distinct p u h

theorem apply_map (p : Post) (c : Call) (h : DistinctUsers p.Votes) :
    ledgerMap (Call.apply p c).Votes = specApply (ledgerMap p.Votes) c := by
  cases c with
  | upvote u => exact changeVotes_map p u 1
  | downvote u => exact changeVotes_map p u (-1)
  | unvote u => exact Unvote_map p u h

theorem runCalls_map (calls : List Call) :
    ∀ p : Post, DistinctUsers p.Votes →
      ledgerMap (runCalls p calls).Votes = calls.foldl specApply (ledgerMap p.Votes) := by
  induction calls with
  | nil => intro p _; rfl
  | cons c cs ih =>
    intro p h
    show ledgerMap (runCalls (Call.apply p c) cs).Votes = _
    rw [ih (Call.apply p c) (apply_distinct p c h), apply_map p c h]
    rfl

theorem specApply_user (m m2 : String → Option Int) (c : Call) :
    specApply m c c.user = specApply m2 c c.user := by
  cases c <;> simp [specApply, Call.user]

theorem specApply_other (m : String → Option Int) (c : Call) (u : String) (h : c.user ≠ u) :
    specApply m c u = m u := by
  have h2 : u ≠ c.user := fun e => h e.symm
  cases c <;> simp only [specApply, Call.user] at h2 ⊢ <;> exact Function.update_noteq h2 _ _

theorem lastCall_append (u : String) (calls : List Call) (c : Call) :
    lastCall u (calls ++ [c]) = if c.user = u then some c else lastCall u calls := by
  unfold lastCall
  rw [List.filter_append]
  by_cases h : c.user = u
  · simp [h]
  · simp [h]

theorem fold_lastCall (calls : List Call) (m : String → Option Int) (u : String) :
    calls.foldl specApply m u =
      match lastCall u calls with
      | none => m u
      | some c => specApply m c u := by
  induction calls using List.reverseRecOn with
  | nil => rfl
  | append_singleton cs c ih =>
    rw [List.foldl_append, lastCall_append]
    show specApply (cs.foldl specApply m) c u = _
    by_cases h : c.user = u
    · rw [if_pos h, ← h]
      exact specApply_user _ _ c
    · rw [if_neg h, specApply_other _ c u h, ih]

theorem runCalls_distinct (calls : List Call) (p : Post) (h : DistinctUsers p.Votes) :
    DistinctUsers (runCalls p calls).Votes :=
  runCalls_keeps (fun q => DistinctUsers q.Votes) apply_distinct calls p h

theorem runCalls_score (calls : List Call) (p : Post) (h : p.Score = sumValues p.Votes) :
    (runCalls p calls).Score = sumValues (runCalls p calls).Votes :=
  runCalls_keeps (fun q => q.Score = sumValues q.Votes) apply_score calls p h

theorem perm_of_ledgerMap_eq (l1 l2 : List Vote) (h1 : DistinctUsers l1)
    (h2 : DistinctUsers l2) (hmap : ledgerMap l1 = ledgerMap l2) : List.Perm l1 l2 := by
  have hn1 : l1.Nodup := List.Nodup.of_map _ h1
  have hn2 : l2.Nodup := List.Nodup.of_map _ h2
  rw [List.perm_ext_iff_of_nodup hn1 hn2]
  intro w
  constructor
  · intro hw
    have := ledgerMap_of_mem l1 h1 w hw
    rw [hmap] at this
    exact mem_of_ledgerMap l2 _ _ this
  · intro hw
    have := ledgerMap_of_mem l2 h2 w hw
    rw [← hmap] at this
    exact mem_of_ledgerMap l1 _ _ this

/-- C30: the ledger refines a finite map from user id to vote value. For
every post whose `Votes` have pairwise distinct `UserID`s and whose `Score` is
the sum of the vote values, with `Votes` read as the map `m`: `Upvote(u)`
yields a post whose map is `m[u := +1]`, `Downvote(u)` one whose map is
`m[u := -1]` and `Unvote(u)` one whose map is `m` with `u` erased; the new
`Votes` again have distinct `UserID`s, so they hold exactly the entries of the
new map, and the new `Score` is the sum of their values. Hence after two
sequences of calls in which every user has the same last call, the map, the
votes up to their order, and the `Score` are the same, however the calls of
different users were interleaved. -/
theorem ledger_refines_map :
    (∀ (p : Post) (u : String), (p.Votes.map Vote.UserID).Nodup →
      p.Score = (p.Votes.map Vote.Value).sum →
        (ledgerMap (p.Upvote u).Votes = Function.update (ledgerMap p.Votes) u (some 1) ∧
          ((p.Upvote u).Votes.map Vote.UserID).Nodup ∧
          (p.Upvote u).Score = ((p.Upvote u).Votes.map Vote.Value).sum) ∧
        (ledgerMap (p.Downvote u).Votes = Function.update (ledgerMap p.Votes) u (some (-1)) ∧
          ((p.Downvote u).Votes.map Vote.UserID).Nodup ∧
          (p.Downvote u).Score = ((p.Downvote u).Votes.map Vote.Value).sum) ∧
        (ledgerMap (p.Unvote u).Votes = Function.update (ledgerMap p.Votes) u none ∧
          ((p.Unvote u).Votes.map Vote.UserID).Nodup ∧
          (p.Unvote u).Score = ((p.Unvote u).Votes.map Vote.Value).sum)) ∧
    (∀ votes : List Vote, (votes.map Vote.UserID).Nodup →
      ∀ w : Vote, w ∈ votes ↔ ledgerMap votes w.UserID = some w.Value) ∧
    (∀ (p : Post) (calls : List Call), (p.Votes.map Vote.UserID).Nodup →
      ledgerMap (runCalls p calls).Votes = calls.foldl specApply (ledgerMap p.Votes)) ∧
    (∀ (p : Post) (calls1 calls2 : List Call), (p.Votes.map Vote.UserID).Nodup →
      p.Score = (p.Votes.map Vote.Value).sum →
      (∀ u, lastCall u calls1 = lastCall u calls2) →
        ledgerMap (runCalls p calls1).Votes = ledgerMap (runCalls p calls2).Votes ∧
        List.Perm (runCalls p calls1).Votes (runCalls p calls2).Votes ∧
        (runCalls p calls1).Score = (runCalls p calls2).Score) := by
  refine ⟨?_, ?_, ?_, ?_⟩
  · intro p u hnd hscore
    exact ⟨⟨changeVotes_map p u 1, changeVotes_distinct p u 1 hnd,
        changeVotes_score p u 1 hscore⟩,
      ⟨changeVotes_map p u (-1), changeVotes_distinct p u (-1) hnd,
        changeVotes_score p u (-1) hscore⟩,
      ⟨Unvote_map p u hnd, Unvote_distinct p u hnd, Unvote_score p u hscore⟩⟩
  · intro votes hnd w
    constructor
    · exact ledgerMap_of_mem votes hnd w
    · intro h
      exact mem_of_ledgerMap votes w.UserID w.Value h
  · intro p calls hnd
    exact runCalls_map calls p hnd
  · intro p calls1 calls2 hnd hscore hlast
    have hmap : ledgerMap (runCalls p calls1).Votes = ledgerMap (runCalls p calls2).Votes := by
      rw [runCalls_map calls1 p hnd, runCalls_map calls2 p hnd]
      funext u
      rw [fold_lastCall, fold_lastCall, hlast u]
    have hperm := perm_of_ledgerMap_eq _ _ (runCalls_distinct calls1 p hnd)
      (runCalls_distinct calls2 p hnd) hmap
    refine ⟨hmap, hperm, ?_⟩
    rw [runCalls_score calls1 p hscore, runCalls_score calls2 p hscore]
    exact (hperm.map Vote.Value).sum_eq

/-- Witness of C30 on the sample post: the calls `Upvote("4")` and
`Unvote("1")` in either order. -/
theorem ledger_refines_map_witness :
    ledgerMap (samplePost.Upvote "4").Votes =
        Function.update (ledgerMap samplePost.Votes) "4" (some 1) ∧
    List.Perm (runCalls samplePost [.upvote "4", .unvote "1"]).Votes
        (runCalls samplePost [.unvote "1", .upvote "4"]).Votes ∧
    (runCalls samplePost [.upvote "4", .unvote "1"]).Score =
        (runCalls samplePost [.unvote "1", .upvote "4"]).Score :=
  ⟨((ledger_refines_map.1 samplePost "4" (by decide) (by decide)).1).1,
   (ledger_refines_map.2.2.2 samplePost [.upvote "4", .unvote "1"] [.unvote "1", .upvote "4"]
      (by decide) (by decide) (fun u => by
        by_cases h4 : "4" = u
        · subst h4
          decide
        · by_cases h1 : "1" = u
          · subst h1
            decide
          · simp [lastCall, Call.user, List.filter, h4, h1])).2⟩

end RedditClone
